import Mathlib

/-!
# csv2vw: conversion of comma separated rows to the vowpal wabbit input format

A shallow embedding of `csv2vw.go`.  The process-wide variables of the program
(`labelS`, `label`, `nominal`, `remove`, `id`, `importance`, `hasheader`,
`useheader`, `headerrow`, `header`, `predictonly`) are gathered in the record
`Globals`; a function of the program that reads or writes them takes the record
and, when it writes, returns the new one.  A run-time panic (index out of range)
and a fatal exit (`log.Fatalf`) are the two constructors of `Failure`.

The standard-library functions the program calls (`strconv.Atoi`,
`strconv.ParseFloat`, `strconv.Itoa`, `strings.TrimPrefix`, `strings.Split`)
are modelled after their documentation, for a 64-bit `int`.
-/

namespace Csv2vw

set_option exponentiation.threshold 20000

/-! ## Standard library: package strconv and package strings -/

deriving instance DecidableEq for Except

/-- The two error values of package strconv. -/
inductive NumError where
  | ErrSyntax
  | ErrRange
  deriving DecidableEq, Repr

/-- Value of a decimal digit character, if it is one. -/
def digitVal (c : Char) : Option Nat :=
  if 48 ≤ c.toNat ∧ c.toNat ≤ 57 then some (c.toNat - 48) else none

/-- Value of a run of decimal digits, most significant first, continuing from `acc`;
`none` when a character is not a decimal digit. -/
def parseDigits : List Char → Nat → Option Nat
  | [], acc => some acc
  | c :: cs, acc =>
    match digitVal c with
    | none => none
    | some d => parseDigits cs (acc * 10 + d)

/-- Unsigned decimal number: at least one character, all of them digits. -/
def parseUnsigned (cs : List Char) : Option Nat :=
  match cs with
  | [] => none
  | _ :: _ => parseDigits cs 0

/-- Go `strconv.Atoi` for a 64-bit `int`: an optional sign `+` or `-`, then one or
more decimal digits; a value outside `-2^63 .. 2^63 - 1` is a range error. -/
def Atoi (s : String) : Except NumError Int :=
  match s.data with
  | [] => .error .ErrSyntax
  | c :: cs =>
    if c = '-' then
      match parseUnsigned cs with
      | none => .error .ErrSyntax
      | some n => if n ≤ 2 ^ 63 then .ok (-(n : Int)) else .error .ErrRange
    else if c = '+' then
      match parseUnsigned cs with
      | none => .error .ErrSyntax
      | some n => if n < 2 ^ 63 then .ok (n : Int) else .error .ErrRange
    else
      match parseUnsigned (c :: cs) with
      | none => .error .ErrSyntax
      | some n => if n < 2 ^ 63 then .ok (n : Int) else .error .ErrRange

/-- Go `strconv.Itoa` on a non-negative argument: the decimal digits. -/
def Itoa (i : Nat) : String := ⟨Nat.toDigits 10 i⟩

/-- Go `strings.TrimPrefix(s, "_")`: `s` without one leading underscore, if it has one. -/
def TrimUnderscore (s : String) : String :=
  match s.data with
  | [] => s
  | c :: cs => if c = '_' then ⟨cs⟩ else s

/-- Pieces of a character list between commas; `cur` is the piece being read, reversed. -/
def splitCommas : List Char → List Char → List String
  | [], cur => [⟨cur.reverse⟩]
  | c :: cs, cur =>
    if c = ',' then ⟨cur.reverse⟩ :: splitCommas cs [] else splitCommas cs (c :: cur)

/-- Go `strings.Split(s, ",")`. -/
def Split (s : String) : List String := splitCommas s.data []

/-- Go `lower(c)` of package strconv: the byte with bit `0x20` set. -/
def lower (c : Char) : Nat := c.toNat ||| 32

/-- Value of a hexadecimal letter digit `a`..`f` or `A`..`F`, if it is one. -/
def hexLetterVal (c : Char) : Option Nat :=
  if 97 ≤ lower c ∧ lower c ≤ 102 then some (lower c - 97 + 10) else none

/-- What the digit loop of `readFloat` has read: the value `digits` of the digits after the
leading zeros, their number `nd`, the position `dp` of the point, and the flags. -/
structure Mantissa where
  digits : Nat
  nd : Nat
  dp : Int
  sawdot : Bool
  sawdigits : Bool
  underscores : Bool
  deriving DecidableEq, Repr

/-- The digit loop of `readFloat` in base 10 or, with `hex`, 16: the state at the first
character that is not part of the mantissa, and the characters from there on. -/
def readMantissa (hex : Bool) : List Char → Mantissa → Mantissa × List Char
  | [], m => (m, [])
  | c :: cs, m =>
    if c = '_' then readMantissa hex cs { m with underscores := true }
    else if c = '.' then
      if m.sawdot then (m, c :: cs)
      else readMantissa hex cs { m with sawdot := true, dp := m.nd }
    else
      match digitVal c with
      | some d =>
        if d = 0 ∧ m.nd = 0 then readMantissa hex cs { m with sawdigits := true, dp := m.dp - 1 }
        else readMantissa hex cs
          { m with sawdigits := true, nd := m.nd + 1, digits := m.digits * (if hex then 16 else 10) + d }
      | none =>
        match (if hex then hexLetterVal c else none) with
        | some d => readMantissa hex cs
            { m with sawdigits := true, nd := m.nd + 1, digits := m.digits * 16 + d }
        | none => (m, c :: cs)

/-- The exponent digit loop of `readFloat`: digits and underscores are consumed, and the
value stops growing once it has reached 10000. -/
def readExpDigits : List Char → Nat → Bool → Nat × Bool × List Char
  | [], e, u => (e, u, [])
  | c :: cs, e, u =>
    if c = '_' then readExpDigits cs e true
    else
      match digitVal c with
      | some d => readExpDigits cs (if e < 10000 then e * 10 + d else e) u
      | none => (e, u, c :: cs)

/-- The optional exponent of `readFloat` after marker `expChar`: the signed exponent, whether
an underscore was read, and the rest; `none` when the exponent is malformed, or missing
although the mantissa is hexadecimal. -/
def readExponent (hex : Bool) (cs : List Char) : Option (Int × Bool × List Char) :=
  match cs with
  | [] => if hex then none else some (0, false, [])
  | c :: rest =>
    if lower c = (if hex then 112 else 101) then
      let (neg, rest) :=
        match rest with
        | [] => (false, [])
        | s :: rest1 => if s = '+' then (false, rest1) else if s = '-' then (true, rest1) else (false, rest)
      match rest with
      | [] => none
      | d :: _ =>
        match digitVal d with
        | none => none
        | some _ =>
          let (e, u, rest2) := readExpDigits rest 0 false
          some (if neg then -(e : Int) else (e : Int), u, rest2)
    else if hex then none else some (0, false, c :: rest)

/-- Go `underscoreOK` after the optional sign and base prefix: `saw` is `0` after a digit,
`1` after an underscore, `2` at the beginning and `3` after any other character. -/
def underscoreLoop (hex : Bool) : List Char → Nat → Bool
  | [], saw => saw != 1
  | c :: cs, saw =>
    if (digitVal c).isSome ∨ (hex ∧ (hexLetterVal c).isSome) then underscoreLoop hex cs 0
    else if c = '_' then (if saw != 0 then false else underscoreLoop hex cs 1)
    else if saw = 1 then false
    else underscoreLoop hex cs 3

/-- Go `underscoreOK`: underscores only between digits, or between a base prefix and a digit. -/
def underscoreOK (cs : List Char) : Bool :=
  let cs := match cs with
    | [] => []
    | c :: rest => if c = '-' ∨ c = '+' then rest else c :: rest
  match cs with
  | c0 :: c1 :: rest =>
    if c0 = '0' ∧ (lower c1 = 98 ∨ lower c1 = 111 ∨ lower c1 = 120) then
      underscoreLoop (lower c1 = 120) rest 0
    else underscoreLoop false cs 2
  | _ => underscoreLoop false cs 2

/-- A `float64`, as far as the program looks at one: it only compares the value with `0`. -/
inductive Float64 where
  /-- Positive or negative zero. -/
  | zero
  /-- A finite value other than zero, or an infinity. -/
  | nonzero
  /-- Not a number. -/
  | nan
  deriving DecidableEq, Repr

/-- The comparison `f == 0`. -/
def Float64.isZero : Float64 → Bool
  | .zero => true
  | _ => false

/-- Rounding of the exact value `digits * base ^ exp` to a `float64`, to nearest, ties to
even: a value of at most `2^-1075` gives zero, a value of at least `2^1024 - 2^970` is out
of range. -/
def roundFloat64 (digits : Nat) (base : Nat) (exp : Int) : Except NumError Float64 :=
  let num := if 0 ≤ exp then digits * base ^ exp.toNat else digits
  let den := if 0 ≤ exp then 1 else base ^ (-exp).toNat
  if num * 2 ^ 1075 ≤ den then .ok .zero
  else if (2 ^ 1024 - 2 ^ 970) * den ≤ num then .error .ErrRange
  else .ok .nonzero

/-- Lower-case form of an ASCII letter, other characters unchanged. -/
def asciiLower (c : Char) : Char :=
  if 65 ≤ c.toNat ∧ c.toNat ≤ 90 then Char.ofNat (c.toNat + 32) else c

/-- Go `special`: `inf` or `infinity` with an optional sign, or `nan`, in any case. -/
def special (cs : List Char) : Option Float64 :=
  let l := cs.map asciiLower
  let unsigned := match l with
    | [] => []
    | c :: rest => if c = '+' ∨ c = '-' then rest else l
  if unsigned = "inf".data ∨ unsigned = "infinity".data then some .nonzero
  else if l = "nan".data then some .nan
  else none

/-- Go `readFloat` and the conversion of what it has read, for the whole of `cs`. -/
def parseNumber (cs : List Char) : Except NumError Float64 :=
  let body := match cs with
    | [] => []
    | c :: rest => if c = '+' ∨ c = '-' then rest else c :: rest
  if body = [] then .error .ErrSyntax
  else
    let (hex, body) := match body with
      | c0 :: c1 :: c2 :: rest =>
        if c0 = '0' ∧ lower c1 = 120 then (true, c2 :: rest) else (false, body)
      | _ => (false, body)
    let (m, rest) := readMantissa hex body ⟨0, 0, 0, false, false, false⟩
    if !m.sawdigits then .error .ErrSyntax
    else
      let dp : Int := if m.sawdot then m.dp else m.nd
      match readExponent hex rest with
      | none => .error .ErrSyntax
      | some (e, u, rest) =>
        if rest ≠ [] then .error .ErrSyntax
        else if (m.underscores ∨ u) ∧ !underscoreOK cs then .error .ErrSyntax
        else if hex then roundFloat64 m.digits 2 (4 * dp + e - 4 * m.nd)
        else roundFloat64 m.digits 10 (dp + e - m.nd)

/-- Go `strconv.ParseFloat(s, 64)`: the value, or the error. -/
def ParseFloat (s : String) : Except NumError Float64 :=
  match special s.data with
  | some f => .ok f
  | none => parseNumber s.data

/-! ## The program's variables -/

/-- Ways a call can end without a result. -/
inductive Failure where
  /-- Run-time panic of an index expression `a[i]`. -/
  | indexOutOfRange
  /-- Exit through `log.Fatalf` with the formatted message. -/
  | fatal (msg : String)
  deriving DecidableEq, Repr

/-- The type `map[string]int` of `header`: the most recent binding of a key comes first. -/
abbrev HeaderMap := List (String × Int)

/-- The type `intmap` (`map[int]bool`), by its keys. -/
abbrev intmap := List Int

/-- The package-level variables the column resolver and the row transformer use. -/
structure Globals where
  labelS : String
  label : Int
  nominal : intmap
  remove : intmap
  id : Int
  importance : Int
  hasheader : Bool
  useheader : Bool
  headerrow : List String
  header : HeaderMap
  predictonly : Bool
  deriving DecidableEq, Repr

/-! ## Column resolver -/

/-- The loop `for i, v := range headerrow { header[v] = i }`, from index `i` on. -/
def fillHeader : List String → Nat → HeaderMap → HeaderMap
  | [], _, m => m
  | v :: vs, i, m => fillHeader vs (i + 1) ((v, (i : Int)) :: m)

/-- The function `parseIndex`, reading the variables `header` and `hasheader`. -/
def parseIndex (header : HeaderMap) (hasheader : Bool) (s : String) : Except Failure Int :=
  match Atoi s with
  | .ok tmp => .ok tmp
  | .error _ =>
    let s := TrimUnderscore s
    match header.lookup s with
    | some tmp => .ok tmp
    | none =>
      let se := "Error parsing " ++ s ++ " as column index."
      let se := if hasheader then se ++ " And did not find a matching column name from header." else se
      .error (.fatal se)

/-- The method `parseIndices`: the keys of the map after the call on list string `s`. -/
def parseIndicesLoop (header : HeaderMap) (hasheader : Bool) :
    List String → intmap → Except Failure intmap
  | [], i => .ok i
  | v :: vs, i =>
    if v ≠ "" then
      match parseIndex header hasheader v with
      | .error e => .error e
      | .ok k => parseIndicesLoop header hasheader vs (k :: i)
    else parseIndicesLoop header hasheader vs i

/-- The method `parseIndices` of `intmap`. -/
def parseIndices (header : HeaderMap) (hasheader : Bool) (i : intmap) (s : String) :
    Except Failure intmap :=
  parseIndicesLoop header hasheader (Split s) i

/-! ## Row transformer -/

/-- The index expression `a[i]` on a slice of strings: a panic when `i` is out of range. -/
def index (a : List String) (i : Int) : Except Failure String :=
  if 0 ≤ i then
    match a.get? i.toNat with
    | some v => .ok v
    | none => .error .indexOutOfRange
  else .error .indexOutOfRange

/-- The loop `for i, v := range line` of `transformLine` from cell `i` on, writing to the
buffer `nl`. -/
def featureLoop (g : Globals) : List String → Nat → String → Except Failure String
  | [], _, nl => .ok nl
  | v :: vs, i, nl =>
    if v = "" then featureLoop g vs (i + 1) nl
    else
      let r : Bool := decide ((i : Int) ∈ g.remove)
      if (i : Int) ≠ g.label ∧ (i : Int) ≠ g.id ∧ (i : Int) ≠ g.importance ∧ !r then
        let n : Bool := decide ((i : Int) ∈ g.nominal)
        let skip : Bool :=
          !n && (match ParseFloat v with
            | .error _ => true
            | .ok f => f.isZero)
        if skip then featureLoop g vs (i + 1) nl
        else
          match (if !g.useheader then .ok (Itoa i) else index g.headerrow i) with
          | .error e => .error e
          | .ok key =>
            let nl := nl ++ key
            let nl := if !n then nl ++ ":" else nl ++ "="
            let nl := nl ++ v
            let nl := nl ++ " "
            featureLoop g vs (i + 1) nl
      else featureLoop g vs (i + 1) nl

/-- Lines 89 to 95 of `transformLine`: unless `predictonly`, assign `label` under the
specifier `-1`, then write the label cell and a space. -/
def writeLabel (g : Globals) (line : List String) (nl : String) :
    Except Failure (Globals × String) :=
  if !g.predictonly then
    let g := if g.labelS = "-1" then { g with label := (line.length : Int) - 1 } else g
    match index line g.label with
    | .error e => .error e
    | .ok v => .ok (g, (nl ++ v) ++ " ")
  else .ok (g, nl)

/-- Lines 97 to 100 of `transformLine`: with an importance column, write its cell and a space. -/
def writeImportance (g : Globals) (line : List String) (nl : String) : Except Failure String :=
  if g.importance > -1 then
    match index line g.importance with
    | .error e => .error e
    | .ok v => .ok ((nl ++ v) ++ " ")
  else .ok nl

/-- Lines 102 to 104 of `transformLine`: with a tag column, write its cell. -/
def writeTag (g : Globals) (line : List String) (nl : String) : Except Failure String :=
  if g.id > -1 then
    match index line g.id with
    | .error e => .error e
    | .ok v => .ok (nl ++ v)
  else .ok nl

/-- The body of the loop of `transformLine` for one received `line`: the variables after
it (it assigns `label`) and the string sent on `newlines`. -/
def transformRow (g : Globals) (line : List String) : Except Failure (Globals × String) :=
  match writeLabel g line "" with
  | .error e => .error e
  | .ok (g, nl) =>
    match writeImportance g line nl with
    | .error e => .error e
    | .ok nl =>
      match writeTag g line nl with
      | .error e => .error e
      | .ok nl =>
        match featureLoop g line 0 (nl ++ "|n ") with
        | .error e => .error e
        | .ok nl => .ok (g, nl ++ "\n")

/-- One worker running `transformLine` on the rows it receives, in order: the variables at
the end and the strings it has sent, in order. -/
def transformLine (g : Globals) : List (List String) → Except Failure (Globals × List String)
  | [] => .ok (g, [])
  | line :: lines =>
    match transformRow g line with
    | .error e => .error e
    | .ok (g1, out) =>
      match transformLine g1 lines with
      | .error e => .error e
      | .ok (g2, outs) => .ok (g2, out :: outs)

/-- The settings of the flags before `flag.Parse`, and the empty maps of `init`. -/
def defaults : Globals :=
  { labelS := "0", label := 0, nominal := [], remove := [], id := 0, importance := 0,
    hasheader := true, useheader := false, headerrow := [], header := [], predictonly := false }

/-! ## Pipeline driver -/

/-- The values of the flag variables after `flag.Parse`. -/
structure Flags where
  labelS : String
  idS : String
  importanceS : String
  nominalS : String
  removeS : String
  NCPU : Int
  hasheader : Bool
  useheader : Bool
  predictonly : Bool
  deriving DecidableEq, Repr

/-- Lines 179 to 233 of `main` on the records `input` that `csvin.Read` returns before the
end of the file: `useheader` implies `hasheader`, the first record is read as the header
row when `hasheader`, and the specifiers are resolved.  The result is the variables and
the records left to read. -/
def setup (f : Flags) (input : List (List String)) :
    Except Failure (Globals × List (List String)) :=
  let hasheader := if f.useheader then true else f.hasheader
  let first : Except Failure (List String × HeaderMap × List (List String)) :=
    if hasheader then
      match input with
      | [] => .error (.fatal "EOF")
      | headerrow :: rest => .ok (headerrow, fillHeader headerrow 0 [], rest)
    else .ok ([], [], input)
  match first with
  | .error e => .error e
  | .ok (headerrow, header, rest) =>
    match parseIndex header hasheader f.labelS with
    | .error e => .error e
    | .ok label =>
      match parseIndex header hasheader f.idS with
      | .error e => .error e
      | .ok id =>
        match parseIndex header hasheader f.importanceS with
        | .error e => .error e
        | .ok importance =>
          match parseIndices header hasheader [] f.nominalS with
          | .error e => .error e
          | .ok nominal =>
            match parseIndices header hasheader [] f.removeS with
            | .error e => .error e
            | .ok remove =>
              .ok ({ labelS := f.labelS, label := label, nominal := nominal, remove := remove,
                     id := id, importance := importance, hasheader := hasheader,
                     useheader := f.useheader, headerrow := headerrow, header := header,
                     predictonly := f.predictonly }, rest)

/-- Lines 190 to 192 of `main`: the number of workers, `numCPU` being what `runtime.NumCPU`
returns. -/
def workerCount (ncpu : Int) (numCPU : Nat) : Nat :=
  if ncpu ≤ 0 then numCPU else ncpu.toNat

/-- Where a goroutine running `transformLine` stands: at the receive of `range lines`, at
the send `newlines <- nl.String()` with the string it has built, or after `wg.Done()`. -/
inductive Worker where
  | waiting
  | sending (nl : String)
  | exited
  deriving DecidableEq, Repr

/-- The goroutines and channels of `main` from line 235 on. -/
structure Pipeline where
  /-- The package-level variables, shared by the workers. -/
  g : Globals
  /-- Capacity `NCPU*10` of both channels. -/
  cap : Nat
  /-- Records `csvin.Read` has not returned yet. -/
  input : List (List String)
  /-- Content of the channel `lines`, oldest first. -/
  lines : List (List String)
  linesClosed : Bool
  workers : List Worker
  /-- Content of the channel `newlines`, oldest first. -/
  newlines : List String
  newlinesClosed : Bool
  /-- Strings passed to `vwout.WriteString`, in order. -/
  written : List String
  /-- The loop over `newlines` has ended and `main` has returned. -/
  finished : Bool
  /-- A goroutine has panicked and the process has stopped. -/
  crashed : Option Failure
  deriving DecidableEq, Repr

/-- The next goroutine to take a step, and the step it takes. -/
inductive Action where
  /-- The reader: `csvin.Read` returns a record, which is sent on `lines`. -/
  | produce
  /-- The reader: `csvin.Read` returns `io.EOF`, and `lines` is closed. -/
  | closeLines
  /-- Worker `w` receives a record and builds its string. -/
  | receive (w : Nat)
  /-- Worker `w` sends its string on `newlines`. -/
  | send (w : Nat)
  /-- Worker `w` finds `lines` closed and empty, and calls `wg.Done`. -/
  | exit (w : Nat)
  /-- After `wg.Wait`, `newlines` is closed. -/
  | closeNewlines
  /-- The main goroutine receives a string and writes it. -/
  | consume
  /-- The main goroutine finds `newlines` closed and empty. -/
  | finish
  deriving DecidableEq, Repr

/-- One step of the pipeline, `none` when the goroutine cannot take it in this state.  A
worker builds the string of a record in one step: with one worker no other goroutine
assigns a variable the row transformer reads. -/
def step (s : Pipeline) (a : Action) : Option Pipeline :=
  if s.finished ∨ s.crashed.isSome then none
  else
    match a with
    | .produce =>
      match s.input with
      | r :: rest =>
        if s.lines.length < s.cap ∧ !s.linesClosed then
          some { s with input := rest, lines := s.lines ++ [r] }
        else none
      | [] => none
    | .closeLines =>
      if s.input = [] ∧ !s.linesClosed then some { s with linesClosed := true } else none
    | .receive w =>
      match s.workers.get? w, s.lines with
      | some .waiting, r :: q =>
        match transformRow s.g r with
        | .ok (g1, nl) =>
          some { s with g := g1, lines := q, workers := s.workers.set w (.sending nl) }
        | .error e => some { s with lines := q, crashed := some e }
      | _, _ => none
    | .send w =>
      match s.workers.get? w with
      | some (.sending nl) =>
        if s.newlines.length < s.cap ∧ !s.newlinesClosed then
          some { s with newlines := s.newlines ++ [nl], workers := s.workers.set w .waiting }
        else none
      | _ => none
    | .exit w =>
      match s.workers.get? w with
      | some .waiting =>
        if s.lines = [] ∧ s.linesClosed then
          some { s with workers := s.workers.set w .exited }
        else none
      | _ => none
    | .closeNewlines =>
      if (s.workers.all fun w => decide (w = .exited)) ∧ !s.newlinesClosed then
        some { s with newlinesClosed := true }
      else none
    | .consume =>
      match s.newlines with
      | nl :: q => some { s with newlines := q, written := s.written ++ [nl] }
      | [] => none
    | .finish =>
      if s.newlines = [] ∧ s.newlinesClosed then some { s with finished := true } else none

/-- The pipeline after the steps of a schedule, `none` when one of them cannot be taken. -/
def exec (s : Pipeline) : List Action → Option Pipeline
  | [] => some s
  | a :: as =>
    match step s a with
    | none => none
    | some s1 => exec s1 as

/-- The pipeline when the goroutines have been started: `ncpu` workers at their receive,
both channels empty with capacity `ncpu * 10`, nothing written. -/
def start (g : Globals) (rows : List (List String)) (ncpu : Nat) : Pipeline :=
  { g := g, cap := ncpu * 10, input := rows, lines := [], linesClosed := false,
    workers := List.replicate ncpu .waiting, newlines := [], newlinesClosed := false,
    written := [], finished := false, crashed := none }

/-- The string a worker holds and has not sent yet. -/
def Worker.pending : Worker → List String
  | .sending nl => [nl]
  | _ => []

/-- A schedule in which each record goes through the whole pipeline before the next is
read. -/
def oneByOne : List (List String) → List Action
  | [] => [.closeLines, .exit 0, .closeNewlines, .finish]
  | _ :: rows => [.produce, .receive 0, .send 0, .consume] ++ oneByOne rows

/-- The flags `-header=true -headernames=true -l y -n c -ncpu 1` of scenario S2. -/
def flagsS2 : Flags :=
  { labelS := "y", idS := "-1", importanceS := "-1", nominalS := "c", removeS := "", NCPU := 1,
    hasheader := true, useheader := true, predictonly := false }

/-- The records of the input of scenario S2. -/
def inputS2 : List (List String) :=
  [["y", "a", "b", "c"], ["1", "0", "2", "hello"], ["-1", "3", "0", "world"]]

/-- What holds of a pipeline with one worker started on `rows` with the variables `g0`: the
worker has taken the records `done`, and what is written, what is in `newlines` and what
the worker holds are, in this order, the strings of `transformLine` on `done`. -/
def Inv (g0 : Globals) (rows : List (List String)) (s : Pipeline) : Prop :=
  (s.crashed ≠ none ∧ s.finished = false) ∨
  (s.crashed = none ∧ ∃ wk done, s.workers = [wk] ∧ done ++ s.lines ++ s.input = rows ∧
    transformLine g0 done = .ok (s.g, s.written ++ s.newlines ++ wk.pending) ∧
    (s.linesClosed = true → s.input = []) ∧
    (wk = .exited → s.lines = [] ∧ s.linesClosed = true) ∧
    (s.newlinesClosed = true → wk = .exited) ∧
    (s.finished = true → s.newlines = [] ∧ s.newlinesClosed = true))

/-! ## The output grammar, in the words of the specification -/

/-- Concatenation of a list of strings, in order. -/
def concatAll : List String → String
  | [] => ""
  | s :: ss => s ++ concatAll ss

/-- The label index in effect for a row: `row_length - 1` under the specifier `-1`, the
resolved label index otherwise. -/
def labelInEffect (g : Globals) (line : List String) : Int :=
  if g.labelS = "-1" then (line.length : Int) - 1 else g.label

/-- The text parses as a floating-point number whose value is not zero. -/
def parsesNonzero (v : String) : Bool :=
  match ParseFloat v with
  | .ok f => !f.isZero
  | .error _ => false

/-- The cell with text `v` at column `i` yields a feature token, `lab` being the label index
in effect: the text is not empty, the column is not the label, tag or importance column,
is not removed, and is nominal or holds a number other than zero. -/
def emits (g : Globals) (lab : Int) (i : Nat) (v : String) : Bool :=
  decide (v ≠ "" ∧ (i : Int) ≠ lab ∧ (i : Int) ≠ g.id ∧ (i : Int) ≠ g.importance ∧
    (i : Int) ∉ g.remove ∧ ((i : Int) ∈ g.nominal ∨ parsesNonzero v = true))

/-- The separator of column `i`: `=` for a nominal column and `:` otherwise. -/
def sepOf (g : Globals) (i : Nat) : String :=
  if (i : Int) ∈ g.nominal then "=" else ":"

/-- The feature key of column `i`: its decimal index, or with `use_names` the header name at
position `i` (the empty text when the header row has no such position). -/
def keyOf (g : Globals) (i : Nat) : String :=
  if g.useheader then g.headerrow.getD i "" else Itoa i

/-- The feature token of the cell `v` at column `i`, with its trailing space. -/
def tokenOf (g : Globals) (i : Nat) (v : String) : String :=
  keyOf g i ++ sepOf g i ++ v ++ " "

/-- The cells of the row that yield a token, with their column index, in increasing index. -/
def emittedCells (g : Globals) (lab : Int) (line : List String) (start : Nat) : List (Nat × String) :=
  (line.enumFrom start).filter (fun p => emits g lab p.1 p.2)

/-- The feature section of the output line for a row. -/
def featureSection (g : Globals) (lab : Int) (line : List String) : String :=
  concatAll ((emittedCells g lab line 0).map (fun p => tokenOf g p.1 p.2))

/-- The raw text of the cell at index `k` of a row, when the row has such a cell. -/
def cellAt (line : List String) (k : Int) : Option String :=
  if 0 ≤ k then line.get? k.toNat else none

/-- The label part of a line: the raw text of the label cell and one space when `emit_label`
is true (`predictonly` false), nothing otherwise. -/
def labelPart (g : Globals) (line : List String) : Option String :=
  if g.predictonly then some ""
  else (cellAt line (labelInEffect g line)).map (fun v => v ++ " ")

/-- The importance part of a line: the raw text of the importance cell and one space when the
importance index is present, nothing otherwise. -/
def importancePart (g : Globals) (line : List String) : Option String :=
  if g.importance > -1 then (cellAt line g.importance).map (fun v => v ++ " ") else some ""

/-- The tag part of a line: the raw text of the tag cell when the tag index is present,
nothing otherwise. -/
def tagPart (g : Globals) (line : List String) : Option String :=
  if g.id > -1 then cellAt line g.id else some ""

/-- The value of the variable `label` while the features of a row are written. -/
def labelAfter (g : Globals) (line : List String) : Int :=
  if g.predictonly then g.label else labelInEffect g line

/-- The specifier without one leading underscore, when it has one. -/
def dropOneUnderscore (s : String) : String :=
  if s.data.head? = some '_' then ⟨s.data.tail⟩ else s

/-- The text contains no newline character. -/
def NoNewline (s : String) : Prop := '\n' ∉ s.data

instance instDecidableNoNewline (s : String) : Decidable (NoNewline s) :=
  inferInstanceAs (Decidable ('\n' ∉ s.data))

/-! ## Example configurations -/

/-- The flags `-header=false -l 0 -w 1 -id 2` after resolution. -/
def cfgTagged : Globals :=
  { defaults with hasheader := false, importance := 1, id := 2 }

/-- The flags `-header=true -headernames=true -l y -n c` after resolution against the header
row `y,a,b,c`. -/
def cfgNamed : Globals :=
  { defaults with
    labelS := "y"
    id := -1
    importance := -1
    nominal := [3]
    useheader := true
    headerrow := ["y", "a", "b", "c"]
    header := fillHeader ["y", "a", "b", "c"] 0 [] }

/-- The flags `-header=false -l -1` after resolution, with an importance column 0. -/
def cfgLast : Globals :=
  { defaults with hasheader := false, labelS := "-1", label := -1, id := -1, importance := 0 }

/-- The flags `-header=false -l 0 -n 1 -r 1` after resolution: column 1 is nominal and
removed. -/
def cfgOverlap : Globals :=
  { defaults with hasheader := false, id := -1, importance := -1, nominal := [1], remove := [1] }

/-- The flags `-header=false -l 0 -n 1` after resolution: column 1 is nominal. -/
def cfgNominal : Globals :=
  { defaults with hasheader := false, id := -1, importance := -1, nominal := [1] }

/-- The flags `-l 0` after resolution against the header row `y,a`. -/
def cfgShort : Globals :=
  { defaults with
    id := -1
    importance := -1
    headerrow := ["y", "a"]
    header := fillHeader ["y", "a"] 0 [] }

/-! ## Pipeline driver with several workers -/

/-- Lines 89 to 92 of `transformLine`: the assignment to the shared variable `label`. -/
def assignLabel (g : Globals) (line : List String) : Globals :=
  if !g.predictonly then
    if g.labelS = "-1" then { g with label := (line.length : Int) - 1 } else g
  else g

/-- Lines 93 to 95 of `transformLine`: unless `predictonly`, write the cell at `label` and
a space. -/
def writeLabelCell (g : Globals) (line : List String) (nl : String) : Except Failure String :=
  if !g.predictonly then
    match index line g.label with
    | .error e => .error e
    | .ok v => .ok ((nl ++ v) ++ " ")
  else .ok nl

/-- Lines 93 to 143 of `transformLine`: the string built for `line` from the variables as
they are when the label cell is read. -/
def buildRow (g : Globals) (line : List String) : Except Failure String :=
  match writeLabelCell g line "" with
  | .error e => .error e
  | .ok nl =>
    match writeImportance g line nl with
    | .error e => .error e
    | .ok nl =>
      match writeTag g line nl with
      | .error e => .error e
      | .ok nl =>
        match featureLoop g line 0 (nl ++ "|n ") with
        | .error e => .error e
        | .ok nl => .ok (nl ++ "\n")

/-- Where one of several goroutines running `transformLine` stands: at the receive of
`range lines`, after the assignment to `label` with the record it holds, at the send with
the string it has built, or after `wg.Done()`. -/
inductive Stage where
  | waiting
  | holding (line : List String)
  | sending (nl : String)
  | exited
  deriving DecidableEq, Repr

/-- The goroutines and channels of `main` from line 235 on, the workers seen between the
assignment to `label` and the reading of the label cell. -/
structure Pool where
  g : Globals
  cap : Nat
  input : List (List String)
  lines : List (List String)
  linesClosed : Bool
  workers : List Stage
  newlines : List String
  newlinesClosed : Bool
  written : List String
  finished : Bool
  crashed : Option Failure
  deriving DecidableEq, Repr

/-- The next goroutine to take a step in a `Pool`, and the step it takes. -/
inductive Move where
  | produce
  | closeLines
  /-- Worker `w` receives a record and assigns `label`. -/
  | take (w : Nat)
  /-- Worker `w` builds the string of the record it holds. -/
  | build (w : Nat)
  | send (w : Nat)
  | exit (w : Nat)
  | closeNewlines
  | consume
  | finish
  deriving DecidableEq, Repr

/-- One step of a pool, `none` when the goroutine cannot take it in this state. -/
def poolStep (s : Pool) (a : Move) : Option Pool :=
  if s.finished ∨ s.crashed.isSome then none
  else
    match a with
    | .produce =>
      match s.input with
      | r :: rest =>
        if s.lines.length < s.cap ∧ !s.linesClosed then
          some { s with input := rest, lines := s.lines ++ [r] }
        else none
      | [] => none
    | .closeLines =>
      if s.input = [] ∧ !s.linesClosed then some { s with linesClosed := true } else none
    | .take w =>
      match s.workers.get? w, s.lines with
      | some .waiting, r :: q =>
        some { s with g := assignLabel s.g r, lines := q, workers := s.workers.set w (.holding r) }
      | _, _ => none
    | .build w =>
      match s.workers.get? w with
      | some (.holding r) =>
        match buildRow s.g r with
        | .ok nl => some { s with workers := s.workers.set w (.sending nl) }
        | .error e => some { s with crashed := some e }
      | _ => none
    | .send w =>
      match s.workers.get? w with
      | some (.sending nl) =>
        if s.newlines.length < s.cap ∧ !s.newlinesClosed then
          some { s with newlines := s.newlines ++ [nl], workers := s.workers.set w .waiting }
        else none
      | _ => none
    | .exit w =>
      match s.workers.get? w with
      | some .waiting =>
        if s.lines = [] ∧ s.linesClosed then
          some { s with workers := s.workers.set w .exited }
        else none
      | _ => none
    | .closeNewlines =>
      if (s.workers.all fun w => decide (w = .exited)) ∧ !s.newlinesClosed then
        some { s with newlinesClosed := true }
      else none
    | .consume =>
      match s.newlines with
      | nl :: q => some { s with newlines := q, written := s.written ++ [nl] }
      | [] => none
    | .finish =>
      if s.newlines = [] ∧ s.newlinesClosed then some { s with finished := true } else none

/-- The pool after the steps of a schedule, `none` when one of them cannot be taken. -/
def poolExec (s : Pool) : List Move → Option Pool
  | [] => some s
  | a :: as =>
    match poolStep s a with
    | none => none
    | some s1 => poolExec s1 as

/-- The pool when the goroutines have been started. -/
def poolStart (g : Globals) (rows : List (List String)) (ncpu : Nat) : Pool :=
  { g := g, cap := ncpu * 10, input := rows, lines := [], linesClosed := false,
    workers := List.replicate ncpu .waiting, newlines := [], newlinesClosed := false,
    written := [], finished := false, crashed := none }

/-- The flags `-header=false -l -1` after resolution. -/
def cfgLastOnly : Globals :=
  { defaults with hasheader := false, labelS := "-1", label := -1, id := -1, importance := -1 }

/-- A schedule of two workers on two records in which the second worker assigns `label`
between the first worker's assignment and its reading of the label cell. -/
def raceSchedule : List Move :=
  [.produce, .produce, .take 0, .take 1, .build 0, .send 0, .build 1, .send 1, .consume,
    .consume, .closeLines, .exit 0, .exit 1, .closeNewlines, .finish]

/-- A schedule of two workers on two records in which each worker reads the label cell right
after its assignment. -/
def calmSchedule : List Move :=
  [.produce, .produce, .take 0, .build 0, .take 1, .build 1, .send 0, .send 1, .consume,
    .consume, .closeLines, .exit 0, .exit 1, .closeNewlines, .finish]

/-- The flags `-header=false -l -1 -ncpu 1` of scenario S3. -/
def flagsS3 : Flags :=
  { labelS := "-1", idS := "-1", importanceS := "-1", nominalS := "", removeS := "", NCPU := 1,
    hasheader := false, useheader := false, predictonly := false }

/-- The records of the input of scenario S3. -/
def inputS3 : List (List String) := [["a", "b", "c"], ["1", "2", "3"]]

/-- The flags `-header=true -l -1` after resolution against the header row `a,b,c`. -/
def cfgLastHeader : Globals :=
  { cfgLastOnly with
    hasheader := true
    headerrow := ["a", "b", "c"]
    header := fillHeader ["a", "b", "c"] 0 [] }

/-- The flags `-header=false -l -1 -nolabel` after resolution. -/
def cfgPredictLast : Globals :=
  { cfgLastOnly with predictonly := true }

/-- The flags `-header=false -l 2 -nolabel` after resolution. -/
def cfgPredictTwo : Globals :=
  { cfgLastOnly with
    labelS := "2"
    label := 2
    predictonly := true }

/-- The flags `-headernames -l 0 -n 2` after resolution against the header row `y,a`. -/
def cfgShortNominal : Globals :=
  { cfgShort with
    useheader := true
    nominal := [2] }

/-- The number written by a run of decimal digits. -/
def decimalValue (cs : List Char) : Nat :=
  cs.foldl (fun acc c => acc * 10 + (c.toNat - 48)) 0

/-- The specifier is not empty and consists only of the decimal digits `0` to `9`. -/
def AllDigits (s : String) : Prop :=
  s.data ≠ [] ∧ ∀ c ∈ s.data, 48 ≤ c.toNat ∧ c.toNat ≤ 57

instance instDecidableAllDigits (s : String) : Decidable (AllDigits s) :=
  inferInstanceAs (Decidable (s.data ≠ [] ∧ ∀ c ∈ s.data, 48 ≤ c.toNat ∧ c.toNat ≤ 57))

/-- The header mapping of the header row `a,9223372036854775808`. -/
def headerBig : HeaderMap := fillHeader ["a", "9223372036854775808"] 0 []

/-- The characters of a number after its optional sign, as `readFloat` skips it. -/
def stripSign (cs : List Char) : List Char :=
  match cs with
  | [] => []
  | c :: rest => if c = '+' ∨ c = '-' then rest else c :: rest

/-- The base prefix test of `readFloat`: whether the mantissa is hexadecimal, and the
characters after the prefix `0x`. -/
def hexSplit (body : List Char) : Bool × List Char :=
  match body with
  | c0 :: c1 :: c2 :: rest =>
    if c0 = '0' ∧ lower c1 = 120 then (true, c2 :: rest) else (false, body)
  | _ => (false, body)

/-- The mantissa, the exponent and the conversion of `parseNumber` on the characters `body`
after the sign and the base prefix of `cs`. -/
def parseBody (cs : List Char) (hex : Bool) (body : List Char) : Except NumError Float64 :=
  let (m, rest) := readMantissa hex body ⟨0, 0, 0, false, false, false⟩
  if !m.sawdigits then .error .ErrSyntax
  else
    let dp : Int := if m.sawdot then m.dp else m.nd
    match readExponent hex rest with
    | none => .error .ErrSyntax
    | some (e, u, rest) =>
      if rest ≠ [] then .error .ErrSyntax
      else if (m.underscores ∨ u) ∧ !underscoreOK cs then .error .ErrSyntax
      else if hex then roundFloat64 m.digits 2 (4 * dp + e - 4 * m.nd)
      else roundFloat64 m.digits 10 (dp + e - m.nd)

/-- The separator character of column `i`: `=` for a nominal column and `:` otherwise. -/
def sepChar (g : Globals) (i : Nat) : Char :=
  if (i : Int) ∈ g.nominal then '=' else ':'

/-! ## Lemmas on the row transformer -/

theorem concatAll_append (xs ys : List String) :
    concatAll (xs ++ ys) = concatAll xs ++ concatAll ys := by
  induction xs with
  | nil => simp [concatAll]
  | cons x xs ih => simp [concatAll, ih, String.append_assoc]

theorem index_ok_iff (a : List String) (k : Int) (v : String) :
    index a k = .ok v ↔ 0 ≤ k ∧ a.get? k.toNat = some v := by
  unfold index
  by_cases hk : 0 ≤ k
  · simp only [hk, if_true, true_and]
    cases h : a.get? k.toNat <;> simp
  · simp [hk]

theorem index_nat (a : List String) (i : Nat) :
    index a (i : Int) = match a.get? i with
      | some v => .ok v
      | none => .error .indexOutOfRange := by
  simp [index]

/-- The feature loop appends to the buffer exactly the tokens of the cells that emit, and
with header names every such cell lies within the header row. -/
theorem featureLoop_ok (g : Globals) (vs : List String) (i : Nat) (nl out : String)
    (h : featureLoop g vs i nl = .ok out) :
    out = nl ++ concatAll ((emittedCells g g.label vs i).map (fun p => tokenOf g p.1 p.2)) ∧
    (g.useheader = true → ∀ p ∈ emittedCells g g.label vs i, p.1 < g.headerrow.length) := by
  induction vs generalizing i nl with
  | nil =>
    simp only [featureLoop] at h
    cases h
    simp [emittedCells, concatAll]
  | cons v vs ih =>
    simp only [featureLoop] at h
    by_cases hv : v = ""
    · simp only [hv, if_true] at h
      have := ih _ _ h
      simpa [emittedCells, List.enumFrom, emits, hv] using this
    · simp only [hv, if_false] at h
      by_cases hc : (i : Int) ≠ g.label ∧ (i : Int) ≠ g.id ∧ (i : Int) ≠ g.importance ∧
          (!decide ((i : Int) ∈ g.remove)) = true
      · rw [if_pos hc] at h
        have hrem : (i : Int) ∉ g.remove := by simpa using hc.2.2.2
        by_cases hs : (!decide ((i : Int) ∈ g.nominal) &&
              match ParseFloat v with
              | Except.error _ => true
              | Except.ok f => f.isZero) = true
        · rw [if_pos hs] at h
          have := ih _ _ h
          have he : emits g g.label i v = false := by
            simp only [emits, decide_eq_false_iff_not, parsesNonzero]
            intro hh
            simp only [Bool.and_eq_true, Bool.not_eq_true', decide_eq_false_iff_not] at hs
            rcases hh.2.2.2.2.2 with hn | hp
            · exact hs.1 hn
            · cases hpf : ParseFloat v <;> simp [hpf] at hs hp
              simp [hs.2] at hp
          simpa [emittedCells, List.enumFrom, he] using this
        · rw [if_neg hs] at h
          have he : emits g g.label i v = true := by
            simp only [emits, decide_eq_true_eq, parsesNonzero]
            refine ⟨hv, hc.1, hc.2.1, hc.2.2.1, hrem, ?_⟩
            by_cases hn : (i : Int) ∈ g.nominal
            · exact Or.inl hn
            · right
              cases hpf : ParseFloat v <;> simp [hpf, hn] at hs ⊢
              exact hs
          have hkey : ∀ key, (if (!g.useheader) = true then Except.ok (Itoa i)
                else index g.headerrow (i : Int)) = Except.ok key →
              key = keyOf g i ∧ (g.useheader = true → i < g.headerrow.length) := by
            intro key hk
            cases hu : g.useheader
            · simp [hu] at hk
              simp [keyOf, hu, hk]
            · simp only [hu, Bool.not_true, Bool.false_eq_true, if_false, index_ok_iff] at hk
              have hk2 : g.headerrow.get? i = some key := by simpa using hk.2
              have hlt : i < g.headerrow.length := by
                rcases List.get?_eq_some.1 hk2 with ⟨hlt, _⟩
                exact hlt
              refine ⟨?_, fun _ => hlt⟩
              simp only [keyOf, hu, if_true, List.getD_eq_getElem?_getD]
              rw [← List.get?_eq_getElem?, hk2]
              rfl
          cases hm : (if (!g.useheader) = true then Except.ok (Itoa i)
                else index g.headerrow (i : Int)) with
          | error e => rw [hm] at h; simp at h
          | ok key =>
            rw [hm] at h
            simp only at h
            obtain ⟨hk1, hk2⟩ := hkey key hm
            obtain ⟨ih1, ih2⟩ := ih _ _ h
            have hbuf : ((if (!decide ((i : Int) ∈ g.nominal)) = true then nl ++ key ++ ":"
                else nl ++ key ++ "=") ++ v ++ " ") = nl ++ tokenOf g i v := by
              by_cases hn : (i : Int) ∈ g.nominal <;>
                simp [tokenOf, sepOf, hn, hk1, String.append_assoc]
            rw [hbuf] at ih1
            constructor
            · rw [ih1]
              simp [emittedCells, List.enumFrom, he, concatAll, String.append_assoc]
            · intro hu p hp
              simp only [emittedCells, List.enumFrom, List.filter_cons, he, if_true,
                List.mem_cons] at hp
              rcases hp with hp | hp
              · rw [hp]; exact hk2 hu
              · exact ih2 hu p hp
      · rw [if_neg hc] at h
        have := ih _ _ h
        have he : emits g g.label i v = false := by
          simp only [emits, decide_eq_false_iff_not]
          intro hh
          apply hc
          simp [hh.2.1, hh.2.2.1, hh.2.2.2.1, hh.2.2.2.2.1]
        simpa [emittedCells, List.enumFrom, he] using this


/-- The feature loop fails only through the header row: it returns a buffer as soon as, with
header names, every cell that emits lies within the header row. -/
theorem featureLoop_total (g : Globals) (vs : List String) (i : Nat) (nl : String)
    (hh : g.useheader = true → ∀ p ∈ emittedCells g g.label vs i, p.1 < g.headerrow.length) :
    ∃ out, featureLoop g vs i nl = .ok out := by
  induction vs generalizing i nl with
  | nil => exact ⟨nl, by simp [featureLoop]⟩
  | cons v vs ih =>
    have hrest : ∀ (b : Bool), emits g g.label i v = b →
        (g.useheader = true → ∀ p ∈ emittedCells g g.label vs (i + 1), p.1 < g.headerrow.length) := by
      intro b _ hu p hp
      apply hh hu
      simp only [emittedCells, List.enumFrom, List.filter_cons]
      split
      · exact List.mem_cons_of_mem _ hp
      · exact hp
    simp only [featureLoop]
    by_cases hv : v = ""
    · simp only [hv, if_true]
      exact ih _ _ (hrest _ rfl)
    · simp only [hv, if_false]
      split
      · split
        · exact ih _ _ (hrest _ rfl)
        · rename_i hc hs
          cases hu : g.useheader
          · simp only [Bool.not_false, if_true]
            exact ih _ _ (hrest _ rfl)
          · have he : emits g g.label i v = true := by
              simp only [emits, decide_eq_true_eq, parsesNonzero]
              have hrem : (i : Int) ∉ g.remove := by simpa using hc.2.2.2
              refine ⟨hv, hc.1, hc.2.1, hc.2.2.1, hrem, ?_⟩
              by_cases hn : (i : Int) ∈ g.nominal
              · exact Or.inl hn
              · right
                cases hpf : ParseFloat v <;> simp [hpf, hn] at hs ⊢
                exact hs
            have hlt : i < g.headerrow.length := by
              apply hh hu (i, v)
              simp [emittedCells, List.enumFrom, he]
            have hget : g.headerrow.get? i = some (g.headerrow.get ⟨i, hlt⟩) :=
              List.get?_eq_get hlt
            simp only [Bool.not_true, Bool.false_eq_true, if_false, index_nat, hget]
            exact ih _ _ (hrest _ rfl)
      · exact ih _ _ (hrest _ rfl)

theorem index_eq_cellAt (a : List String) (k : Int) :
    index a k = match cellAt a k with
      | some v => .ok v
      | none => .error .indexOutOfRange := by
  unfold index cellAt
  by_cases hk : 0 ≤ k
  · simp only [hk, if_true]
  · simp only [hk, if_false]

theorem writeLabel_ok_iff (g g1 : Globals) (line : List String) (nl out : String) :
    writeLabel g line nl = .ok (g1, out) ↔
      g1 = { g with label := labelAfter g line } ∧
      ∃ pl, labelPart g line = some pl ∧ out = nl ++ pl := by
  rcases g with ⟨labelS, label, nominal, remove, id, importance, hasheader, useheader,
    headerrow, header, predictonly⟩
  unfold writeLabel labelPart labelAfter labelInEffect
  cases predictonly
  · by_cases hl : labelS = "-1"
    · simp only [hl, if_true, index_eq_cellAt, Bool.not_false, Bool.false_eq_true, if_false]
      cases hc : cellAt line ((line.length : Int) - 1) <;>
        simp [String.append_assoc, eq_comm]
    · simp only [hl, if_false, index_eq_cellAt, Bool.not_false, if_true, Bool.false_eq_true]
      cases hc : cellAt line label <;>
        simp [String.append_assoc, eq_comm]
  · simp [eq_comm]

theorem writeImportance_ok_iff (g : Globals) (line : List String) (nl out : String) :
    writeImportance g line nl = .ok out ↔
      ∃ pi, importancePart g line = some pi ∧ out = nl ++ pi := by
  unfold writeImportance importancePart
  by_cases hi : g.importance > -1
  · simp only [hi, if_true, index_eq_cellAt]
    cases hc : cellAt line g.importance <;> simp [String.append_assoc, eq_comm]
  · simp [hi, eq_comm]

theorem writeTag_ok_iff (g : Globals) (line : List String) (nl out : String) :
    writeTag g line nl = .ok out ↔ ∃ pt, tagPart g line = some pt ∧ out = nl ++ pt := by
  unfold writeTag tagPart
  by_cases hi : g.id > -1
  · simp only [hi, if_true, index_eq_cellAt]
    cases hc : cellAt line g.id <;> simp [eq_comm]
  · simp [hi, eq_comm]

/-- The row transformer returns exactly when the three cells of the line start exist and,
with header names, the cells that emit lie within the header row; the line it returns is
the three parts, the namespace marker, the feature section and a newline, and the only
variable it assigns is `label`. -/
theorem transformRow_ok_iff (g g1 : Globals) (line : List String) (out : String) :
    transformRow g line = .ok (g1, out) ↔
      g1 = { g with label := labelAfter g line } ∧
      (g.useheader = true →
        ∀ p ∈ emittedCells g (labelAfter g line) line 0, p.1 < g.headerrow.length) ∧
      ∃ pl pi pt, labelPart g line = some pl ∧ importancePart g line = some pi ∧
        tagPart g line = some pt ∧
        out = pl ++ pi ++ pt ++ "|n " ++ featureSection g (labelAfter g line) line ++ "\n" := by
  unfold transformRow
  constructor
  · intro h
    cases h1 : writeLabel g line "" with
    | error e => rw [h1] at h; cases h
    | ok r =>
      obtain ⟨ga, nla⟩ := r
      rw [h1] at h
      simp only at h
      obtain ⟨hga, pl, hpl, hnla⟩ := (writeLabel_ok_iff g ga line "" nla).1 h1
      cases h2 : writeImportance ga line nla with
      | error e => rw [h2] at h; cases h
      | ok nlb =>
        rw [h2] at h
        simp only at h
        obtain ⟨pi, hpi, hnlb⟩ := (writeImportance_ok_iff ga line nla nlb).1 h2
        cases h3 : writeTag ga line nlb with
        | error e => rw [h3] at h; cases h
        | ok nlc =>
          rw [h3] at h
          simp only at h
          obtain ⟨pt, hpt, hnlc⟩ := (writeTag_ok_iff ga line nlb nlc).1 h3
          cases h4 : featureLoop ga line 0 (nlc ++ "|n ") with
          | error e => rw [h4] at h; cases h
          | ok nld =>
            rw [h4] at h
            simp only [Except.ok.injEq, Prod.mk.injEq] at h
            obtain ⟨hf1, hf2⟩ := featureLoop_ok ga line 0 _ nld h4
            subst hga
            refine ⟨h.1.symm, hf2, pl, pi, pt, hpl, hpi, hpt, ?_⟩
            rw [← h.2, hf1, hnlc, hnlb, hnla]
            simp only [featureSection, String.append_assoc]
            rfl
  · rintro ⟨hg1, hh, pl, pi, pt, hpl, hpi, hpt, hout⟩
    have h1 : writeLabel g line "" = .ok (g1, "" ++ pl) :=
      (writeLabel_ok_iff g g1 line "" _).2 ⟨hg1, pl, hpl, rfl⟩
    rw [h1]
    simp only
    have h2 : writeImportance g1 line ("" ++ pl) = .ok ("" ++ pl ++ pi) := by
      subst hg1
      exact (writeImportance_ok_iff _ line _ _).2 ⟨pi, hpi, rfl⟩
    rw [h2]
    simp only
    have h3 : writeTag g1 line ("" ++ pl ++ pi) = .ok ("" ++ pl ++ pi ++ pt) := by
      subst hg1
      exact (writeTag_ok_iff _ line _ _).2 ⟨pt, hpt, rfl⟩
    rw [h3]
    simp only
    have hh1 : g1.useheader = true →
        ∀ p ∈ emittedCells g1 g1.label line 0, p.1 < g1.headerrow.length := by
      subst hg1
      exact hh
    obtain ⟨nld, h4⟩ := featureLoop_total g1 line 0 ("" ++ pl ++ pi ++ pt ++ "|n ") hh1
    rw [h4]
    simp only [Except.ok.injEq, Prod.mk.injEq, true_and]
    obtain ⟨hf1, _⟩ := featureLoop_ok g1 line 0 _ nld h4
    rw [hf1, hout]
    subst hg1
    simp only [featureSection, String.append_assoc]
    rfl

theorem mem_emittedCells (g : Globals) (lab : Int) (line : List String) (p : Nat × String) :
    p ∈ emittedCells g lab line 0 ↔ line.get? p.1 = some p.2 ∧ emits g lab p.1 p.2 = true := by
  obtain ⟨i, v⟩ := p
  simp only [emittedCells, List.mem_filter]
  have : (i, v) ∈ List.enumFrom 0 line ↔ line.get? i = some v := by
    rw [List.get?_eq_getElem?]
    exact List.mk_mem_enum_iff_getElem?
  rw [this]

theorem cellAt_last (line : List String) (hne : line ≠ []) :
    cellAt line ((line.length : Int) - 1) = line.getLast? := by
  have hpos : 0 < line.length := List.length_pos.2 hne
  have h0 : (0 : Int) ≤ (line.length : Int) - 1 := by omega
  have h1 : ((line.length : Int) - 1).toNat = line.length - 1 := by omega
  simp only [cellAt, h0, if_true, h1]
  rw [List.getLast?_eq_getElem?, List.get?_eq_getElem?]

theorem cellAt_mem (line : List String) (k : Int) (v : String) (h : cellAt line k = some v) :
    v ∈ line := by
  unfold cellAt at h
  split at h
  · exact List.get?_mem h
  · cases h

theorem transformRow_total (g : Globals) (line : List String)
    (hl : labelPart g line ≠ none) (hi : importancePart g line ≠ none)
    (ht : tagPart g line ≠ none)
    (hh : g.useheader = true → line.length ≤ g.headerrow.length) :
    ∃ g1 out, transformRow g line = .ok (g1, out) := by
  obtain ⟨pl, hpl⟩ := Option.ne_none_iff_exists'.1 hl
  obtain ⟨pi, hpi⟩ := Option.ne_none_iff_exists'.1 hi
  obtain ⟨pt, hpt⟩ := Option.ne_none_iff_exists'.1 ht
  refine ⟨_, _, (transformRow_ok_iff g _ line _).2 ⟨rfl, ?_, pl, pi, pt, hpl, hpi, hpt, rfl⟩⟩
  intro hu p hp
  have hget := ((mem_emittedCells g _ line p).1 hp).1
  rcases List.get?_eq_some.1 hget with ⟨hlt, _⟩
  exact Nat.lt_of_lt_of_le hlt (hh hu)

/-- The emitted cells of a row come in increasing column index. -/
theorem emittedCells_increasing (g : Globals) (lab : Int) (line : List String) (start : Nat) :
    (emittedCells g lab line start).Pairwise (fun a b => a.1 < b.1) := by
  unfold emittedCells
  apply List.Pairwise.filter
  have h : ((line.enumFrom start).map Prod.fst).Pairwise (fun a b => a < b) := by
    rw [List.enumFrom_map_fst]
    exact List.pairwise_lt_range' start line.length
  exact (List.pairwise_map.1 h)

/-- An emitted cell splits the emitted cells into those of smaller and those of greater
column index. -/
theorem emittedCells_split (g : Globals) (lab : Int) (line : List String) (p : Nat × String)
    (h : p ∈ emittedCells g lab line 0) :
    ∃ before after, emittedCells g lab line 0 = before ++ p :: after ∧
      (∀ q ∈ before, q.1 < p.1) ∧ (∀ q ∈ after, p.1 < q.1) := by
  obtain ⟨before, after, heq⟩ := List.append_of_mem h
  have hs := emittedCells_increasing g lab line 0
  rw [heq] at hs
  obtain ⟨_, h2, h3⟩ := List.pairwise_append.1 hs
  refine ⟨before, after, heq, ?_, ?_⟩
  · intro q hq
    exact h3 q hq p (List.mem_cons_self _ _)
  · intro q hq
    exact (List.pairwise_cons.1 h2).1 q hq

theorem NoNewline_append (a b : String) : NoNewline (a ++ b) ↔ NoNewline a ∧ NoNewline b := by
  simp [NoNewline, String.data_append, not_or]

theorem NoNewline_concatAll (xs : List String) (h : ∀ x ∈ xs, NoNewline x) :
    NoNewline (concatAll xs) := by
  induction xs with
  | nil => simp [concatAll, NoNewline]
  | cons x xs ih =>
    simp only [concatAll, NoNewline_append]
    exact ⟨h x (List.mem_cons_self _ _), ih (fun y hy => h y (List.mem_cons_of_mem _ hy))⟩

theorem digitChar_ne_newline (d : Nat) : Nat.digitChar d ≠ '\n' := by
  by_cases h : d < 16
  · interval_cases d <;> decide
  · unfold Nat.digitChar
    iterate 16 rw [if_neg (by omega)]
    decide

theorem toDigitsCore_chars (b f n : Nat) (acc : List Char) (c : Char)
    (h : c ∈ Nat.toDigitsCore b f n acc) : c ∈ acc ∨ ∃ d, c = Nat.digitChar d := by
  induction f generalizing n acc with
  | zero => simp only [Nat.toDigitsCore] at h; exact Or.inl h
  | succ f ih =>
    simp only [Nat.toDigitsCore] at h
    split at h
    · rcases List.mem_cons.1 h with h | h
      · exact Or.inr ⟨_, h⟩
      · exact Or.inl h
    · rcases ih _ _ h with h | h
      · rcases List.mem_cons.1 h with h | h
        · exact Or.inr ⟨_, h⟩
        · exact Or.inl h
      · exact Or.inr h

theorem NoNewline_Itoa (i : Nat) : NoNewline (Itoa i) := by
  intro h
  rcases toDigitsCore_chars 10 (i + 1) i [] '\n' h with h | ⟨d, hd⟩
  · simp at h
  · exact digitChar_ne_newline d hd.symm

/-! ## Lemmas on the column resolver -/

theorem fillHeader_lookup_not_mem (vs : List String) (i : Nat) (m : HeaderMap) (n : String)
    (hn : n ∉ vs) : (fillHeader vs i m).lookup n = m.lookup n := by
  induction vs generalizing i m with
  | nil => rfl
  | cons v vs ih =>
    simp only [List.mem_cons, not_or] at hn
    simp only [fillHeader]
    rw [ih _ _ hn.2]
    have hne : (n == v) = false := by simpa using hn.1
    simp [List.lookup, hne]

/-- After the header loop a name of the row is bound to the last position at which it
occurs. -/
theorem fillHeader_lookup_mem (vs : List String) (i : Nat) (m : HeaderMap) (n : String)
    (hn : n ∈ vs) :
    ∃ k, (fillHeader vs i m).lookup n = some ((i + k : Nat) : Int) ∧ vs.get? k = some n ∧
      ∀ j, k < j → vs.get? j ≠ some n := by
  induction vs generalizing i m with
  | nil => simp at hn
  | cons v vs ih =>
    simp only [fillHeader]
    by_cases hmem : n ∈ vs
    · obtain ⟨k, hk1, hk2, hk3⟩ := ih (i + 1) ((v, (i : Int)) :: m) hmem
      refine ⟨k + 1, ?_, ?_, ?_⟩
      · rw [hk1]
        congr 2
        omega
      · simpa using hk2
      · intro j hj
        obtain ⟨j', rfl⟩ : ∃ j', j = j' + 1 := ⟨j - 1, by omega⟩
        simpa using hk3 j' (by omega)
    · have hv : n = v := by
        rcases List.mem_cons.1 hn with h | h
        · exact h
        · exact absurd h hmem
      refine ⟨0, ?_, ?_, ?_⟩
      · rw [fillHeader_lookup_not_mem _ _ _ _ hmem]
        simp [List.lookup, hv]
      · simp [hv]
      · intro j hj
        obtain ⟨j', rfl⟩ : ∃ j', j = j' + 1 := ⟨j - 1, by omega⟩
        intro hget
        apply hmem
        have : vs.get? j' = some n := by simpa using hget
        exact List.get?_mem this

theorem Atoi_underscore (r : String) : ∃ e, Atoi ("_" ++ r) = .error e := by
  refine ⟨.ErrSyntax, ?_⟩
  have hd : ("_" ++ r).data = '_' :: r.data := by
    simp [String.data_append]
  unfold Atoi
  rw [hd]
  have h1 : ('_' = '-') = False := by decide
  have h2 : ('_' = '+') = False := by decide
  simp only [h1, h2, if_false]
  have : parseUnsigned ('_' :: r.data) = none := by
    simp [parseUnsigned, parseDigits, digitVal]
  rw [this]

theorem TrimUnderscore_underscore (r : String) : TrimUnderscore ("_" ++ r) = r := by
  have hd : ("_" ++ r).data = '_' :: r.data := by
    simp [String.data_append]
  unfold TrimUnderscore
  rw [hd]
  simp

theorem TrimUnderscore_other (s : String) (h : s.data.head? ≠ some '_') :
    TrimUnderscore s = s := by
  unfold TrimUnderscore
  cases hd : s.data with
  | nil => rfl
  | cons c cs =>
    rw [hd] at h
    have hc : c ≠ '_' := by simpa using h
    simp [hc]

theorem TrimUnderscore_eq (s : String) : TrimUnderscore s = dropOneUnderscore s := by
  unfold TrimUnderscore dropOneUnderscore
  cases hd : s.data with
  | nil => simp
  | cons c cs =>
    by_cases hc : c = '_'
    · simp [hc]
    · simp [hc]

theorem parseIndex_of_ok (header : HeaderMap) (hasheader : Bool) (s : String) (n : Int)
    (h : Atoi s = .ok n) : parseIndex header hasheader s = .ok n := by
  simp [parseIndex, h]

theorem parseIndex_of_error (header : HeaderMap) (hasheader : Bool) (s : String) (e : NumError)
    (h : Atoi s = .error e) :
    parseIndex header hasheader s =
      match header.lookup (dropOneUnderscore s) with
      | some tmp => .ok tmp
      | none => .error (.fatal
          (if hasheader then
            "Error parsing " ++ dropOneUnderscore s ++ " as column index." ++
              " And did not find a matching column name from header."
          else "Error parsing " ++ dropOneUnderscore s ++ " as column index.")) := by
  simp only [parseIndex, h, TrimUnderscore_eq]

/-! ## Claims on the column resolver -/

/-- C3: if the specifier parses as a decimal integer, `parseIndex` returns that integer
whatever the header mapping is and whatever the integer is (no bounds check); otherwise, if
the specifier with one leading underscore removed (when present) is a key of the header
mapping, `parseIndex` returns the index the mapping holds for that remainder. -/
theorem C3_parseIndex_resolution (header : HeaderMap) (hasheader : Bool) (s : String) :
    (∀ n, Atoi s = .ok n →
      ∀ (header2 : HeaderMap) (hasheader2 : Bool), parseIndex header2 hasheader2 s = .ok n) ∧
    (∀ idx, (∃ e, Atoi s = .error e) → header.lookup (dropOneUnderscore s) = some idx →
      parseIndex header hasheader s = .ok idx) := by
  constructor
  · intro n hn header2 hasheader2
    exact parseIndex_of_ok _ _ _ _ hn
  · rintro idx ⟨e, he⟩ hl
    rw [parseIndex_of_error _ _ _ _ he, hl]

/-- C4: `parseIndex` fails if and only if the specifier does not parse as a decimal integer
and the specifier with one leading underscore removed is not a key of the header mapping, and
every failure is a fatal exit; with the empty mapping (no header read) every specifier that
is not a decimal integer fails, so whatever resolves then is the value of a decimal
integer. -/
theorem C4_parseIndex_failure (header : HeaderMap) (hasheader : Bool) (s : String) :
    ((∃ f, parseIndex header hasheader s = .error f) ↔
      ((∃ e, Atoi s = .error e) ∧ header.lookup (dropOneUnderscore s) = none)) ∧
    (∀ f, parseIndex header hasheader s = .error f → ∃ msg, f = .fatal msg) ∧
    ((∃ e, Atoi s = .error e) → ∃ msg, parseIndex [] hasheader s = .error (.fatal msg)) ∧
    (∀ n, parseIndex [] hasheader s = .ok n → Atoi s = .ok n) := by
  cases ha : Atoi s with
  | ok n =>
    simp [parseIndex_of_ok _ _ _ _ ha]
  | error e =>
    simp only [parseIndex_of_error _ _ _ _ ha, List.lookup]
    cases hl : header.lookup (dropOneUnderscore s) with
    | none => simp
    | some idx => simp

/-- C7: for every header row and every name `n` that occurs in it, digits-only names
included, `parseIndex` on `_` followed by `n` does not read the specifier as a position and
returns the header index of the column named `n`, the last one when the name occurs more
than once. -/
theorem C7_underscore_escape (headerrow : List String) (hasheader : Bool) (n : String)
    (hn : n ∈ headerrow) :
    (∃ e, Atoi ("_" ++ n) = .error e) ∧
    ∃ k : Nat, parseIndex (fillHeader headerrow 0 []) hasheader ("_" ++ n) = .ok (k : Int) ∧
      headerrow.get? k = some n ∧ ∀ j, k < j → headerrow.get? j ≠ some n := by
  obtain ⟨e, he⟩ := Atoi_underscore n
  refine ⟨⟨e, he⟩, ?_⟩
  obtain ⟨k, hk1, hk2, hk3⟩ := fillHeader_lookup_mem headerrow 0 [] n hn
  refine ⟨k, ?_, hk2, hk3⟩
  rw [parseIndex_of_error _ _ _ _ he, ← TrimUnderscore_eq, TrimUnderscore_underscore, hk1]
  simp

/-- C7 at the header `2,1,0`: the specifier `_0` gives index 2, the column named `0`, not
position 0. -/
theorem C7_underscore_escape_witness :
    "0" ∈ ["2", "1", "0"] ∧ parseIndex (fillHeader ["2", "1", "0"] 0 []) true "_0" = .ok 2 ∧
    ((∃ e, Atoi ("_" ++ "0") = .error e) ∧
    ∃ k : Nat, parseIndex (fillHeader ["2", "1", "0"] 0 []) true ("_" ++ "0") = .ok (k : Int) ∧
      ["2", "1", "0"].get? k = some "0" ∧ ∀ j, k < j → ["2", "1", "0"].get? j ≠ some "0") :=
  ⟨by decide, by decide, C7_underscore_escape ["2", "1", "0"] true "0" (by decide)⟩

/-! ## Claims on the row transformer -/

/-- C1: when `emit_label` is true or the label specifier is not `-1`, and the row is
transformed without failure, the text of the line between the namespace marker and the final
newline is the concatenation, in increasing column index, of `key ++ sep ++ v ++ " "` for
exactly the cells that are non-empty, are not the label, tag or importance column in effect,
are not removed, and are nominal or parse to a non-zero number; with header names every such
key is the header name at the cell's position; and a nominal cell that is removed or has a
special role yields no token. -/
theorem C1_feature_emission (g g1 : Globals) (line : List String) (out : String)
    (hcfg : g.predictonly = false ∨ g.labelS ≠ "-1")
    (h : transformRow g line = .ok (g1, out)) :
    (∃ pl pi pt, labelPart g line = some pl ∧ importancePart g line = some pi ∧
      tagPart g line = some pt ∧
      out = pl ++ pi ++ pt ++ "|n " ++
        concatAll (((line.enumFrom 0).filter
          (fun p => emits g (labelInEffect g line) p.1 p.2)).map
            (fun p => keyOf g p.1 ++ sepOf g p.1 ++ p.2 ++ " ")) ++ "\n") ∧
    (g.useheader = true → ∀ p ∈ (line.enumFrom 0).filter
        (fun p => emits g (labelInEffect g line) p.1 p.2),
      g.headerrow.get? p.1 = some (keyOf g p.1)) ∧
    (∀ (i : Nat) (v : String), (i : Int) ∈ g.nominal →
      ((i : Int) ∈ g.remove ∨ (i : Int) = labelInEffect g line ∨ (i : Int) = g.id ∨
        (i : Int) = g.importance) →
      emits g (labelInEffect g line) i v = false) := by
  have hlab : labelAfter g line = labelInEffect g line := by
    unfold labelAfter
    rcases hcfg with hp | hl
    · simp [hp]
    · simp [labelInEffect, hl]
  obtain ⟨_, hh, pl, pi, pt, hpl, hpi, hpt, hout⟩ := (transformRow_ok_iff g g1 line out).1 h
  rw [hlab] at hh hout
  refine ⟨⟨pl, pi, pt, hpl, hpi, hpt, hout⟩, ?_, ?_⟩
  · intro hu p hp
    have hlt := hh hu p hp
    simp only [keyOf, hu, if_true, List.getD_eq_getElem?_getD]
    rw [← List.get?_eq_getElem?, List.get?_eq_get hlt]
    rfl
  · intro i v _ hsp
    simp only [emits, decide_eq_false_iff_not]
    rintro ⟨_, h1, h2, h3, h4, _⟩
    rcases hsp with h | h | h | h
    · exact h4 h
    · exact h1 h
    · exact h2 h
    · exact h3 h

/-- C1 at the second data row of scenario S2 (header names, nominal column `c`). -/
theorem C1_feature_emission_witness :
    (∃ pl pi pt, labelPart cfgNamed ["-1", "3", "0", "world"] = some pl ∧
      importancePart cfgNamed ["-1", "3", "0", "world"] = some pi ∧
      tagPart cfgNamed ["-1", "3", "0", "world"] = some pt ∧
      "-1 |n a:3 c=world \n" = pl ++ pi ++ pt ++ "|n " ++
        concatAll (((["-1", "3", "0", "world"].enumFrom 0).filter
          (fun p => emits cfgNamed (labelInEffect cfgNamed ["-1", "3", "0", "world"]) p.1 p.2)).map
            (fun p => keyOf cfgNamed p.1 ++ sepOf cfgNamed p.1 ++ p.2 ++ " ")) ++ "\n") ∧
    (cfgNamed.useheader = true → ∀ p ∈ (["-1", "3", "0", "world"].enumFrom 0).filter
        (fun p => emits cfgNamed (labelInEffect cfgNamed ["-1", "3", "0", "world"]) p.1 p.2),
      cfgNamed.headerrow.get? p.1 = some (keyOf cfgNamed p.1)) ∧
    (∀ (i : Nat) (v : String), (i : Int) ∈ cfgNamed.nominal →
      ((i : Int) ∈ cfgNamed.remove ∨ (i : Int) = labelInEffect cfgNamed ["-1", "3", "0", "world"] ∨
        (i : Int) = cfgNamed.id ∨ (i : Int) = cfgNamed.importance) →
      emits cfgNamed (labelInEffect cfgNamed ["-1", "3", "0", "world"]) i v = false) :=
  C1_feature_emission cfgNamed cfgNamed ["-1", "3", "0", "world"] "-1 |n a:3 c=world \n"
    (Or.inl (by decide)) (by decide)

/-- C2: for every configuration and every row transformed without failure, the line is the
label part, the importance part, the tag part, the namespace marker `|n `, the features and a
newline, where the label part is the label cell and one space when `emit_label` is true and
empty otherwise, the importance part is the importance cell and one space when the importance
index is greater than -1 and empty otherwise, and the tag part is the tag cell with no space
after it when the tag index is greater than -1 and empty otherwise. -/
theorem C2_line_grammar (g g1 : Globals) (line : List String) (out : String)
    (h : transformRow g line = .ok (g1, out)) :
    ∃ pl pi pt features, out = pl ++ pi ++ pt ++ "|n " ++ features ++ "\n" ∧
      (if g.predictonly = false
        then ∃ v, cellAt line (labelInEffect g line) = some v ∧ pl = v ++ " "
        else pl = "") ∧
      (if g.importance > -1
        then ∃ v, cellAt line g.importance = some v ∧ pi = v ++ " "
        else pi = "") ∧
      (if g.id > -1 then cellAt line g.id = some pt else pt = "") ∧
      features = featureSection g (labelAfter g line) line := by
  obtain ⟨_, _, pl, pi, pt, hpl, hpi, hpt, hout⟩ := (transformRow_ok_iff g g1 line out).1 h
  refine ⟨pl, pi, pt, _, hout, ?_, ?_, ?_, rfl⟩
  · unfold labelPart at hpl
    cases hp : g.predictonly
    · simp only [hp, Bool.false_eq_true, if_false, Option.map_eq_some'] at hpl
      obtain ⟨v, hv, hv2⟩ := hpl
      simp only [if_true]
      exact ⟨v, hv, hv2.symm⟩
    · simp only [hp, if_true, Option.some.injEq] at hpl
      simp [hpl.symm]
  · unfold importancePart at hpi
    by_cases hi : g.importance > -1
    · simp only [hi, if_true, Option.map_eq_some'] at hpi ⊢
      obtain ⟨v, hv, hv2⟩ := hpi
      exact ⟨v, hv, hv2.symm⟩
    · simp only [hi, if_false, Option.some.injEq] at hpi ⊢
      exact hpi.symm
  · unfold tagPart at hpt
    by_cases hi : g.id > -1
    · simpa only [hi, if_true] using hpt
    · simp only [hi, if_false, Option.some.injEq] at hpt ⊢
      exact hpt.symm

/-- C2 at scenario S4: label, importance and tag before the namespace marker. -/
theorem C2_line_grammar_witness :
    ∃ pl pi pt features, "1 0.5 ex1|n 3:2.0 4:3.0 \n" = pl ++ pi ++ pt ++ "|n " ++ features ++ "\n" ∧
      (if cfgTagged.predictonly = false
        then ∃ v, cellAt ["1", "0.5", "ex1", "2.0", "3.0"]
            (labelInEffect cfgTagged ["1", "0.5", "ex1", "2.0", "3.0"]) = some v ∧ pl = v ++ " "
        else pl = "") ∧
      (if cfgTagged.importance > -1
        then ∃ v, cellAt ["1", "0.5", "ex1", "2.0", "3.0"] cfgTagged.importance = some v ∧
          pi = v ++ " "
        else pi = "") ∧
      (if cfgTagged.id > -1 then cellAt ["1", "0.5", "ex1", "2.0", "3.0"] cfgTagged.id = some pt
        else pt = "") ∧
      features = featureSection cfgTagged
        (labelAfter cfgTagged ["1", "0.5", "ex1", "2.0", "3.0"]) ["1", "0.5", "ex1", "2.0", "3.0"] :=
  C2_line_grammar cfgTagged cfgTagged ["1", "0.5", "ex1", "2.0", "3.0"]
    "1 0.5 ex1|n 3:2.0 4:3.0 \n" (by decide)

/-- C5: with the label specifier `-1` and `emit_label` true, on every non-empty row the label
step does not fail and writes the text of the last cell (index `row_length - 1`), empty or
not, and one space; every line produced for the row begins with them; the last cell yields
no feature token; and a line is produced as soon as the importance and tag cells exist and,
with header names, the row is not longer than the header row. -/
theorem C5_last_label_sentinel (g : Globals) (line : List String)
    (hl : g.labelS = "-1") (hp : g.predictonly = false) (hne : line ≠ []) :
    ∃ last, line.getLast? = some last ∧ line.get? (line.length - 1) = some last ∧
      (∃ g1, writeLabel g line "" = .ok (g1, "" ++ (last ++ " "))) ∧
      (∀ g1 out, transformRow g line = .ok (g1, out) →
        ∃ pi pt, out = last ++ " " ++ pi ++ pt ++ "|n " ++
          featureSection g ((line.length : Int) - 1) line ++ "\n") ∧
      (∀ p ∈ emittedCells g ((line.length : Int) - 1) line 0, p.1 ≠ line.length - 1) ∧
      (importancePart g line ≠ none → tagPart g line ≠ none →
        (g.useheader = true → line.length ≤ g.headerrow.length) →
        ∃ g1 out, transformRow g line = .ok (g1, out)) := by
  obtain ⟨last, hlast⟩ : ∃ last, line.getLast? = some last := by
    cases hc : line.getLast? with
    | none => exact absurd (List.getLast?_eq_none_iff.1 hc) hne
    | some v => exact ⟨v, rfl⟩
  have hcell : cellAt line ((line.length : Int) - 1) = some last := by
    rw [cellAt_last line hne, hlast]
  have hlab : labelAfter g line = (line.length : Int) - 1 := by
    simp [labelAfter, labelInEffect, hp, hl]
  have hpart : labelPart g line = some (last ++ " ") := by
    simp [labelPart, labelInEffect, hp, hl, hcell]
  have hpos : 0 < line.length := List.length_pos.2 hne
  refine ⟨last, hlast, ?_, ?_, ?_, ?_, ?_⟩
  · rw [← hlast, List.getLast?_eq_getElem?, List.get?_eq_getElem?]
  · exact ⟨_, (writeLabel_ok_iff g _ line "" _).2 ⟨rfl, _, hpart, rfl⟩⟩
  · intro g1 out h
    obtain ⟨_, _, pl, pi, pt, hpl, _, _, hout⟩ := (transformRow_ok_iff g g1 line out).1 h
    rw [hpart] at hpl
    cases hpl
    rw [hlab] at hout
    exact ⟨pi, pt, hout⟩
  · intro p hp2 heq
    have hem := ((mem_emittedCells g _ line p).1 hp2).2
    simp only [emits, decide_eq_true_eq] at hem
    apply hem.2.1
    rw [heq]
    omega
  · intro hi ht hh
    exact transformRow_total g line (by rw [hpart]; simp) hi ht hh

/-- C5 at the row `0.5,x,` under `-l -1 -w 0`: the label is the empty last cell. -/
theorem C5_last_label_sentinel_witness :
    transformRow cfgLast ["0.5", "x", ""] = .ok ({ cfgLast with label := 2 }, " 0.5 |n \n") ∧
    ∃ last, ["0.5", "x", ""].getLast? = some last ∧
      ["0.5", "x", ""].get? (["0.5", "x", ""].length - 1) = some last ∧
      (∃ g1, writeLabel cfgLast ["0.5", "x", ""] "" = .ok (g1, "" ++ (last ++ " "))) ∧
      (∀ g1 out, transformRow cfgLast ["0.5", "x", ""] = .ok (g1, out) →
        ∃ pi pt, out = last ++ " " ++ pi ++ pt ++ "|n " ++
          featureSection cfgLast ((["0.5", "x", ""].length : Int) - 1) ["0.5", "x", ""] ++ "\n") ∧
      (∀ p ∈ emittedCells cfgLast ((["0.5", "x", ""].length : Int) - 1) ["0.5", "x", ""] 0,
        p.1 ≠ ["0.5", "x", ""].length - 1) ∧
      (importancePart cfgLast ["0.5", "x", ""] ≠ none → tagPart cfgLast ["0.5", "x", ""] ≠ none →
        (cfgLast.useheader = true → ["0.5", "x", ""].length ≤ cfgLast.headerrow.length) →
        ∃ g1 out, transformRow cfgLast ["0.5", "x", ""] = .ok (g1, out)) :=
  ⟨by decide, C5_last_label_sentinel cfgLast ["0.5", "x", ""] (by decide) (by decide) (by decide)⟩

/-- C6, as stated, fails: column 1 is nominal and holds `0`, but it is also removed, and the
line has no token for it.  And with header names under the header row `y,a`, the nominal
column 2 of the row `1,2,0` holds `0` and is neither removed nor special, but no line is
produced: the transformation stops on an index out of range. -/
theorem C6_nominal_zero_counterexample :
    ((1 : Int) ∈ cfgOverlap.nominal ∧ ["1", "0"].get? 1 = some "0" ∧
      transformRow cfgOverlap ["1", "0"] = .ok (cfgOverlap, "1 |n \n") ∧
      emittedCells cfgOverlap (labelAfter cfgOverlap ["1", "0"]) ["1", "0"] 0 = []) ∧
    ((2 : Int) ∈ cfgShortNominal.nominal ∧ ["1", "2", "0"].get? 2 = some "0" ∧
      (2 : Int) ∉ cfgShortNominal.remove ∧ (2 : Int) ≠ labelAfter cfgShortNominal ["1", "2", "0"] ∧
      (2 : Int) ≠ cfgShortNominal.id ∧ (2 : Int) ≠ cfgShortNominal.importance ∧
      transformRow cfgShortNominal ["1", "2", "0"] = .error .indexOutOfRange) := by
  decide

/-- C6, amended: the texts `0`, `0.0`, `-0`, `0e0` and `0e3` parse to zero.  A cell of a column
that is not nominal whose text parses to zero yields no feature token: the feature section
of every line produced for the row consists of the tokens of the other cells that yield one.
For a cell with text `0` of a nominal column that is not removed and is not the label, tag
or importance column, every line produced for the row has the token `key=0` in its feature
section, after the tokens of the emitted cells of smaller index and before those of greater
index; a line is produced as soon as the label, importance and tag cells exist and, with
header names, the row is not longer than the header row. -/
theorem C6_zero_suppression (g : Globals) (line : List String) (i : Nat) (v : String)
    (hget : line.get? i = some v) :
    (ParseFloat "0" = .ok .zero ∧ ParseFloat "0.0" = .ok .zero ∧ ParseFloat "-0" = .ok .zero ∧
      ParseFloat "0e0" = .ok .zero ∧ ParseFloat "0e3" = .ok .zero) ∧
    ((i : Int) ∉ g.nominal → (∃ f, ParseFloat v = .ok f ∧ f.isZero = true) →
      (∀ p ∈ emittedCells g (labelAfter g line) line 0, p.1 ≠ i) ∧
      (∀ g1 out, transformRow g line = .ok (g1, out) →
        ∃ pl pi pt, labelPart g line = some pl ∧ importancePart g line = some pi ∧
          tagPart g line = some pt ∧
          out = pl ++ pi ++ pt ++ "|n " ++
            concatAll (((emittedCells g (labelAfter g line) line 0).filter
              (fun p => decide (p.1 ≠ i))).map (fun p => tokenOf g p.1 p.2)) ++ "\n")) ∧
    ((i : Int) ∈ g.nominal → v = "0" → (i : Int) ∉ g.remove → (i : Int) ≠ labelAfter g line →
      (i : Int) ≠ g.id → (i : Int) ≠ g.importance →
      tokenOf g i "0" = keyOf g i ++ "=" ++ "0" ++ " " ∧
      (∀ g1 out, transformRow g line = .ok (g1, out) →
        ∃ pl pi pt before after, labelPart g line = some pl ∧
          importancePart g line = some pi ∧ tagPart g line = some pt ∧
          emittedCells g (labelAfter g line) line 0 = before ++ (i, "0") :: after ∧
          (∀ q ∈ before, q.1 < i) ∧ (∀ q ∈ after, i < q.1) ∧
          out = pl ++ pi ++ pt ++ "|n " ++
            concatAll (before.map (fun p => tokenOf g p.1 p.2)) ++
            (keyOf g i ++ "=" ++ "0" ++ " ") ++
            concatAll (after.map (fun p => tokenOf g p.1 p.2)) ++ "\n") ∧
      (labelPart g line ≠ none → importancePart g line ≠ none → tagPart g line ≠ none →
        (g.useheader = true → line.length ≤ g.headerrow.length) →
        ∃ g1 out, transformRow g line = .ok (g1, out))) := by
  refine ⟨by decide, ?_, ?_⟩
  · rintro hn ⟨f, hf, hz⟩
    have hno : ∀ p ∈ emittedCells g (labelAfter g line) line 0, p.1 ≠ i := by
      intro p hp heq
      obtain ⟨hg, hem⟩ := (mem_emittedCells g _ line p).1 hp
      rw [heq, hget] at hg
      cases hg
      simp only [emits, decide_eq_true_eq, parsesNonzero, hf, hz] at hem
      rcases hem.2.2.2.2.2 with h | h
      · exact hn (heq ▸ h)
      · simp at h
    refine ⟨hno, ?_⟩
    intro g1 out h
    obtain ⟨_, _, pl, pi, pt, hpl, hpi, hpt, hout⟩ := (transformRow_ok_iff g g1 line out).1 h
    refine ⟨pl, pi, pt, hpl, hpi, hpt, ?_⟩
    rw [List.filter_eq_self.2 (fun p hp => decide_eq_true (hno p hp))]
    exact hout
  · intro hn hv hr h1 h2 h3
    subst hv
    have hmem : (i, "0") ∈ emittedCells g (labelAfter g line) line 0 := by
      refine (mem_emittedCells g _ line (i, "0")).2 ⟨hget, ?_⟩
      simp only [emits, decide_eq_true_eq]
      exact ⟨by decide, h1, h2, h3, hr, Or.inl hn⟩
    have htok : tokenOf g i "0" = keyOf g i ++ "=" ++ "0" ++ " " := by
      simp [tokenOf, sepOf, hn]
    refine ⟨htok, ?_, fun hl hi ht hh => transformRow_total g line hl hi ht hh⟩
    intro g1 out h
    obtain ⟨_, _, pl, pi, pt, hpl, hpi, hpt, hout⟩ := (transformRow_ok_iff g g1 line out).1 h
    obtain ⟨before, after, heq, hb, ha⟩ := emittedCells_split g _ line (i, "0") hmem
    refine ⟨pl, pi, pt, before, after, hpl, hpi, hpt, heq, hb, ha, ?_⟩
    rw [hout, featureSection, heq, List.map_append, concatAll_append, List.map_cons, concatAll,
      htok]
    simp only [String.append_assoc]

/-- C6 at the row `1,0` with column 1 nominal: the line has the token `1=0`. -/
theorem C6_zero_suppression_witness :
    ["1", "0"].get? 1 = some "0" ∧
    transformRow cfgNominal ["1", "0"] = .ok (cfgNominal, "1 |n 1=0 \n") ∧
    ((ParseFloat "0" = .ok .zero ∧ ParseFloat "0.0" = .ok .zero ∧ ParseFloat "-0" = .ok .zero ∧
      ParseFloat "0e0" = .ok .zero ∧ ParseFloat "0e3" = .ok .zero) ∧
    ((1 : Int) ∉ cfgNominal.nominal → (∃ f, ParseFloat "0" = .ok f ∧ f.isZero = true) →
      (∀ p ∈ emittedCells cfgNominal (labelAfter cfgNominal ["1", "0"]) ["1", "0"] 0, p.1 ≠ 1) ∧
      (∀ g1 out, transformRow cfgNominal ["1", "0"] = .ok (g1, out) →
        ∃ pl pi pt, labelPart cfgNominal ["1", "0"] = some pl ∧
          importancePart cfgNominal ["1", "0"] = some pi ∧
          tagPart cfgNominal ["1", "0"] = some pt ∧
          out = pl ++ pi ++ pt ++ "|n " ++
            concatAll (((emittedCells cfgNominal (labelAfter cfgNominal ["1", "0"])
                ["1", "0"] 0).filter
              (fun p => decide (p.1 ≠ 1))).map (fun p => tokenOf cfgNominal p.1 p.2)) ++ "\n")) ∧
    ((1 : Int) ∈ cfgNominal.nominal → "0" = "0" → (1 : Int) ∉ cfgNominal.remove →
      (1 : Int) ≠ labelAfter cfgNominal ["1", "0"] →
      (1 : Int) ≠ cfgNominal.id → (1 : Int) ≠ cfgNominal.importance →
      tokenOf cfgNominal 1 "0" = keyOf cfgNominal 1 ++ "=" ++ "0" ++ " " ∧
      (∀ g1 out, transformRow cfgNominal ["1", "0"] = .ok (g1, out) →
        ∃ pl pi pt before after, labelPart cfgNominal ["1", "0"] = some pl ∧
          importancePart cfgNominal ["1", "0"] = some pi ∧
          tagPart cfgNominal ["1", "0"] = some pt ∧
          emittedCells cfgNominal (labelAfter cfgNominal ["1", "0"]) ["1", "0"] 0 =
            before ++ (1, "0") :: after ∧
          (∀ q ∈ before, q.1 < 1) ∧ (∀ q ∈ after, 1 < q.1) ∧
          out = pl ++ pi ++ pt ++ "|n " ++
            concatAll (before.map (fun p => tokenOf cfgNominal p.1 p.2)) ++
            (keyOf cfgNominal 1 ++ "=" ++ "0" ++ " ") ++
            concatAll (after.map (fun p => tokenOf cfgNominal p.1 p.2)) ++ "\n") ∧
      (labelPart cfgNominal ["1", "0"] ≠ none → importancePart cfgNominal ["1", "0"] ≠ none →
        tagPart cfgNominal ["1", "0"] ≠ none →
        (cfgNominal.useheader = true → ["1", "0"].length ≤ cfgNominal.headerrow.length) →
        ∃ g1 out, transformRow cfgNominal ["1", "0"] = .ok (g1, out)))) :=
  ⟨by decide, by decide, C6_zero_suppression cfgNominal ["1", "0"] 1 "0" (by decide)⟩

/-- C8, as stated, fails: on the row `1,2,3` under the header `y,a` the index run produces a
line and the run with header names stops on an index out of range, so there is no second
line to compare. -/
theorem C8_name_index_counterexample :
    transformRow { cfgShort with useheader := false } ["1", "2", "3"] =
      .ok ({ cfgShort with useheader := false }, "1 |n 1:2 2:3 \n") ∧
    transformRow { cfgShort with useheader := true } ["1", "2", "3"] =
      .error .indexOutOfRange := by
  decide

/-- C8, amended: for every configuration and every data row on which the transformation with
`use_names` true does not fail, the transformation with `use_names` false does not fail
either, and the two lines have the same label, importance and tag parts and the same
sequence of cells, separators and values; they differ only in the key of each token, the
decimal column index in one and the header name at that position in the other. -/
theorem C8_name_index_equivalence (g : Globals) (line : List String) (gN : Globals)
    (outN : String) (h : transformRow { g with useheader := true } line = .ok (gN, outN)) :
    ∃ gI outI pl pi pt, transformRow { g with useheader := false } line = .ok (gI, outI) ∧
      labelPart g line = some pl ∧ importancePart g line = some pi ∧ tagPart g line = some pt ∧
      outN = pl ++ pi ++ pt ++ "|n " ++
        concatAll ((emittedCells g (labelAfter g line) line 0).map
          (fun p => g.headerrow.getD p.1 "" ++ sepOf g p.1 ++ p.2 ++ " ")) ++ "\n" ∧
      outI = pl ++ pi ++ pt ++ "|n " ++
        concatAll ((emittedCells g (labelAfter g line) line 0).map
          (fun p => Itoa p.1 ++ sepOf g p.1 ++ p.2 ++ " ")) ++ "\n" ∧
      (∀ p ∈ emittedCells g (labelAfter g line) line 0,
        g.headerrow.get? p.1 = some (g.headerrow.getD p.1 "")) := by
  obtain ⟨_, hh, pl, pi, pt, hpl, hpi, hpt, hout⟩ :=
    (transformRow_ok_iff { g with useheader := true } gN line outN).1 h
  have hI : transformRow { g with useheader := false } line =
      .ok ({ { g with useheader := false } with
              label := labelAfter { g with useheader := false } line },
        pl ++ pi ++ pt ++ "|n " ++
          featureSection { g with useheader := false }
            (labelAfter { g with useheader := false } line) line ++ "\n") :=
    (transformRow_ok_iff { g with useheader := false } _ line _).2
      ⟨rfl, fun hu => Bool.noConfusion hu, pl, pi, pt, hpl, hpi, hpt, rfl⟩
  refine ⟨_, _, pl, pi, pt, hI, hpl, hpi, hpt, hout, rfl, ?_⟩
  intro p hp
  have hlt : p.1 < g.headerrow.length := hh rfl p hp
  rw [List.getD_eq_getElem?_getD, ← List.get?_eq_getElem?, List.get?_eq_get hlt]
  rfl

/-- C8 at the first data row of scenario S2. -/
theorem C8_name_index_equivalence_witness :
    ∃ gI outI pl pi pt,
      transformRow { cfgNamed with useheader := false } ["1", "0", "2", "hello"] = .ok (gI, outI) ∧
      labelPart cfgNamed ["1", "0", "2", "hello"] = some pl ∧
      importancePart cfgNamed ["1", "0", "2", "hello"] = some pi ∧
      tagPart cfgNamed ["1", "0", "2", "hello"] = some pt ∧
      "1 |n b:2 c=hello \n" = pl ++ pi ++ pt ++ "|n " ++
        concatAll ((emittedCells cfgNamed (labelAfter cfgNamed ["1", "0", "2", "hello"])
            ["1", "0", "2", "hello"] 0).map
          (fun p => cfgNamed.headerrow.getD p.1 "" ++ sepOf cfgNamed p.1 ++ p.2 ++ " ")) ++ "\n" ∧
      outI = pl ++ pi ++ pt ++ "|n " ++
        concatAll ((emittedCells cfgNamed (labelAfter cfgNamed ["1", "0", "2", "hello"])
            ["1", "0", "2", "hello"] 0).map
          (fun p => Itoa p.1 ++ sepOf cfgNamed p.1 ++ p.2 ++ " ")) ++ "\n" ∧
      (∀ p ∈ emittedCells cfgNamed (labelAfter cfgNamed ["1", "0", "2", "hello"])
          ["1", "0", "2", "hello"] 0,
        cfgNamed.headerrow.get? p.1 = some (cfgNamed.headerrow.getD p.1 "")) :=
  C8_name_index_equivalence cfgNamed ["1", "0", "2", "hello"] cfgNamed "1 |n b:2 c=hello \n"
    (by decide)

/-- C9, as stated, fails: a cell may hold a newline, and the line produced for the row `a⏎b`
then has a newline before its last character. -/
theorem C9_one_line_counterexample :
    transformRow cfgNominal ["a\nb"] = .ok (cfgNominal, "a\nb |n \n") ∧
    '\n' ∈ ("a\nb |n \n").data.dropLast := by
  decide

/-- C9, amended: every line produced by the row transformer ends with a newline character,
and it contains no other newline character when no cell of the row and, with header names,
no header name contains one. -/
theorem C9_one_line (g g1 : Globals) (line : List String) (out : String)
    (h : transformRow g line = .ok (g1, out)) :
    ∃ body, out = body ++ "\n" ∧
      ((∀ v ∈ line, NoNewline v) → (g.useheader = true → ∀ n ∈ g.headerrow, NoNewline n) →
        NoNewline body) := by
  obtain ⟨_, hh, pl, pi, pt, hpl, hpi, hpt, hout⟩ := (transformRow_ok_iff g g1 line out).1 h
  refine ⟨_, hout, ?_⟩
  intro hcells hnames
  have hsp : NoNewline " " := by decide
  have hcell : ∀ k v, cellAt line k = some v → NoNewline v :=
    fun k v hk => hcells v (cellAt_mem line k v hk)
  have h1 : NoNewline pl := by
    unfold labelPart at hpl
    split at hpl
    · cases hpl; decide
    · obtain ⟨v, hv, rfl⟩ := Option.map_eq_some'.1 hpl
      exact (NoNewline_append _ _).2 ⟨hcell _ v hv, hsp⟩
  have h2 : NoNewline pi := by
    unfold importancePart at hpi
    split at hpi
    · obtain ⟨v, hv, rfl⟩ := Option.map_eq_some'.1 hpi
      exact (NoNewline_append _ _).2 ⟨hcell _ v hv, hsp⟩
    · cases hpi; decide
  have h3 : NoNewline pt := by
    unfold tagPart at hpt
    split at hpt
    · exact hcell _ pt hpt
    · cases hpt; decide
  have h4 : NoNewline (featureSection g (labelAfter g line) line) := by
    apply NoNewline_concatAll
    intro x hx
    obtain ⟨p, hp, rfl⟩ := List.mem_map.1 hx
    have hget := ((mem_emittedCells g _ line p).1 hp).1
    have hv : NoNewline p.2 := hcells _ (List.get?_mem hget)
    have hkey : NoNewline (keyOf g p.1) := by
      unfold keyOf
      split
      · rename_i hu
        have hlt := hh hu p hp
        rw [List.getD_eq_getElem?_getD, ← List.get?_eq_getElem?, List.get?_eq_get hlt]
        exact hnames hu _ (List.get_mem _ _ _)
      · exact NoNewline_Itoa _
    have hsep : NoNewline (sepOf g p.1) := by
      unfold sepOf
      split <;> decide
    simp only [tokenOf, NoNewline_append]
    exact ⟨⟨⟨hkey, hsep⟩, hv⟩, hsp⟩
  simp only [NoNewline_append]
  exact ⟨⟨⟨⟨h1, h2⟩, h3⟩, by decide⟩, h4⟩

/-- C9 at scenario S4: the line ends with a newline and has no other. -/
theorem C9_one_line_witness :
    ∃ body, "1 0.5 ex1|n 3:2.0 4:3.0 \n" = body ++ "\n" ∧
      ((∀ v ∈ ["1", "0.5", "ex1", "2.0", "3.0"], NoNewline v) →
        (cfgTagged.useheader = true → ∀ n ∈ cfgTagged.headerrow, NoNewline n) →
        NoNewline body) :=
  C9_one_line cfgTagged cfgTagged ["1", "0.5", "ex1", "2.0", "3.0"]
    "1 0.5 ex1|n 3:2.0 4:3.0 \n" (by decide)

/-! ## Lemmas on the pipeline -/

theorem transformLine_snoc (g g1 g2 : Globals) (done : List (List String)) (r : List String)
    (outs : List String) (nl : String) (h1 : transformLine g done = .ok (g1, outs))
    (h2 : transformRow g1 r = .ok (g2, nl)) :
    transformLine g (done ++ [r]) = .ok (g2, outs ++ [nl]) := by
  induction done generalizing g outs with
  | nil =>
    simp only [transformLine, Except.ok.injEq, Prod.mk.injEq] at h1
    obtain ⟨rfl, rfl⟩ := h1
    simp [transformLine, h2]
  | cons d ds ih =>
    simp only [transformLine, List.cons_append] at h1 ⊢
    cases hd : transformRow g d with
    | error e => rw [hd] at h1; cases h1
    | ok r1 =>
      obtain ⟨ga, oa⟩ := r1
      rw [hd] at h1
      simp only at h1 ⊢
      cases hr : transformLine ga ds with
      | error e => rw [hr] at h1; cases h1
      | ok r2 =>
        obtain ⟨gb, ob⟩ := r2
        rw [hr] at h1
        simp only [Except.ok.injEq, Prod.mk.injEq] at h1
        obtain ⟨rfl, rfl⟩ := h1
        have hih := ih ga ob hr
        simp only [List.append_eq] at hih ⊢
        rw [hih]
        simp

theorem single_get? (wk x : Worker) (w : Nat) (h : [wk].get? w = some x) :
    w = 0 ∧ wk = x := by
  cases w with
  | zero => simpa using h
  | succ n => simp at h

theorem step_inv (g0 : Globals) (rows : List (List String)) (s s1 : Pipeline) (a : Action)
    (h : Inv g0 rows s) (hs : step s a = some s1) : Inv g0 rows s1 := by
  unfold step at hs
  split at hs
  · cases hs
  · rename_i hrun
    have hfin : s.finished = false := by
      cases hf : s.finished
      · rfl
      · exact absurd (Or.inl hf) hrun
    have hcr : s.crashed = none := by
      cases hc : s.crashed
      · rfl
      · exact absurd (Or.inr (by simp [hc])) hrun
    rcases h with h | h
    · exact absurd hcr h.1
    · obtain ⟨_, wk, done, hw, hrows, htl, hc1, hc2, hc3, hc4⟩ := h
      cases a with
      | produce =>
        simp only at hs
        split at hs
        · rename_i r rest hin
          split at hs
          · rename_i hc
            simp only [Option.some.injEq] at hs
            subst hs
            right
            refine ⟨hcr, wk, done, hw, ?_, htl, ?_, ?_, hc3, hc4⟩
            · simp only [← hrows, hin, List.append_assoc, List.singleton_append]
            · intro hlc
              simp [show s.linesClosed = true from hlc] at hc
            · intro hex
              simp [(hc2 hex).2] at hc
          · cases hs
        · cases hs
      | closeLines =>
        simp only at hs
        split at hs
        · rename_i hc
          simp only [Option.some.injEq] at hs
          subst hs
          right
          exact ⟨hcr, wk, done, hw, hrows, htl, fun _ => hc.1,
            fun hex => ⟨(hc2 hex).1, rfl⟩, hc3, hc4⟩
        · cases hs
      | receive w =>
        simp only at hs
        split at hs
        · rename_i r q hget hlines
          obtain ⟨hw0, hwk⟩ := single_get? wk _ w (hw ▸ hget)
          subst hw0 hwk
          split at hs
          · rename_i g1 nl htr
            simp only [Option.some.injEq] at hs
            subst hs
            right
            refine ⟨hcr, .sending nl, done ++ [r], by simp [hw], ?_, ?_, hc1, ?_, ?_, hc4⟩
            · simp only [← hrows, hlines, List.append_assoc, List.singleton_append]
            · have := transformLine_snoc g0 s.g g1 done r _ nl htl htr
              simpa [Worker.pending, List.append_assoc] using this
            · intro hex
              cases hex
            · intro hnc
              exact absurd (hc3 hnc) (by simp)
          · rename_i e htr
            simp only [Option.some.injEq] at hs
            subst hs
            left
            exact ⟨by simp, hfin⟩
        · cases hs
      | send w =>
        simp only at hs
        split at hs
        · rename_i nl hget
          obtain ⟨hw0, hwk⟩ := single_get? wk _ w (hw ▸ hget)
          subst hw0 hwk
          split at hs
          · rename_i hc
            simp only [Option.some.injEq] at hs
            subst hs
            right
            refine ⟨hcr, .waiting, done, by simp [hw], hrows, ?_, hc1, ?_, ?_, ?_⟩
            · simpa [Worker.pending, List.append_assoc] using htl
            · intro hex
              cases hex
            · intro hnc
              simp [show s.newlinesClosed = true from hnc] at hc
            · intro hf
              rw [show s.finished = false from hfin] at hf
              cases hf
          · cases hs
        · cases hs
      | exit w =>
        simp only at hs
        split at hs
        · rename_i hget
          obtain ⟨hw0, hwk⟩ := single_get? wk _ w (hw ▸ hget)
          subst hw0 hwk
          split at hs
          · rename_i hc
            simp only [Option.some.injEq] at hs
            subst hs
            right
            refine ⟨hcr, .exited, done, by simp [hw], hrows, ?_, hc1, fun _ => hc, fun _ => rfl, hc4⟩
            simpa [Worker.pending] using htl
          · cases hs
        · cases hs
      | closeNewlines =>
        simp only at hs
        split at hs
        · rename_i hc
          simp only [Option.some.injEq] at hs
          subst hs
          right
          have hex : wk = .exited := by
            have := hc.1
            simpa [hw] using this
          refine ⟨hcr, wk, done, hw, hrows, htl, hc1, hc2, fun _ => hex, ?_⟩
          intro hf
          rw [show s.finished = false from hfin] at hf
          cases hf
        · cases hs
      | consume =>
        simp only at hs
        split at hs
        · rename_i nl q hnl
          simp only [Option.some.injEq] at hs
          subst hs
          right
          refine ⟨hcr, wk, done, hw, hrows, ?_, hc1, hc2, hc3, ?_⟩
          · simpa [hnl, List.append_assoc] using htl
          · intro hf
            rw [show s.finished = false from hfin] at hf
            cases hf
        · cases hs
      | finish =>
        simp only at hs
        split at hs
        · rename_i hc
          simp only [Option.some.injEq] at hs
          subst hs
          right
          exact ⟨hcr, wk, done, hw, hrows, htl, hc1, hc2, hc3, fun _ => hc⟩
        · cases hs

theorem exec_inv (g0 : Globals) (rows : List (List String)) (schedule : List Action)
    (s s1 : Pipeline) (h : Inv g0 rows s) (hs : exec s schedule = some s1) : Inv g0 rows s1 := by
  induction schedule generalizing s with
  | nil =>
    simp only [exec, Option.some.injEq] at hs
    exact hs ▸ h
  | cons a as ih =>
    simp only [exec] at hs
    cases hst : step s a with
    | none => rw [hst] at hs; cases hs
    | some s2 =>
      rw [hst] at hs
      exact ih s2 (step_inv g0 rows s s2 a h hst) hs

theorem start_inv (g0 : Globals) (rows : List (List String)) : Inv g0 rows (start g0 rows 1) := by
  right
  refine ⟨rfl, .waiting, [], rfl, by simp [start], by simp [start, transformLine, Worker.pending],
    ?_, ?_, ?_, ?_⟩ <;> simp [start]

/-- A pipeline with one worker that has finished has written the strings of `transformLine`
on all the records, in order. -/
theorem finished_written (g0 : Globals) (rows : List (List String)) (s : Pipeline)
    (h : Inv g0 rows s) (hf : s.finished = true) :
    transformLine g0 rows = .ok (s.g, s.written) := by
  rcases h with h | h
  · rw [h.2] at hf
    cases hf
  · obtain ⟨_, wk, done, _, hrows, htl, hc1, hc2, hc3, hc4⟩ := h
    obtain ⟨hn, hnc⟩ := hc4 hf
    have hex := hc3 hnc
    obtain ⟨hl, hlc⟩ := hc2 hex
    have hin := hc1 hlc
    subst hex
    rw [hl, hin] at hrows
    simp only [List.append_nil] at hrows
    subst hrows
    simpa [hn, Worker.pending] using htl

theorem transformRow_label_irrelevant (g : Globals) (line : List String) (x : Int)
    (hp : g.predictonly = false) (hl : g.labelS = "-1") :
    transformRow { g with label := x } line = transformRow g line := by
  unfold transformRow writeLabel
  simp only [hp, hl, Bool.not_false, if_true]

theorem transformRow_after (g : Globals) (r line : List String) :
    transformRow { g with label := labelAfter g r } line = transformRow g line := by
  have hself : ({ g with label := g.label } : Globals) = g := by cases g; rfl
  have hcase : labelAfter g r = g.label ∨ (g.predictonly = false ∧ g.labelS = "-1") := by
    unfold labelAfter labelInEffect
    cases hp : g.predictonly
    · by_cases hl : g.labelS = "-1"
      · exact Or.inr ⟨rfl, hl⟩
      · simp [hl]
    · simp
  rcases hcase with h | ⟨hp, hl⟩
  · rw [h, hself]
  · exact transformRow_label_irrelevant g line _ hp hl

/-- The strings of `transformLine` on a list of records are, record by record, the strings
of the row transformer on each record with the variables of the beginning. -/
theorem transformLine_pointwise (g g1 : Globals) (rows : List (List String))
    (outs : List String) (h : transformLine g rows = .ok (g1, outs)) :
    List.Forall₂ (fun r o => ∃ g2, transformRow g r = .ok (g2, o)) rows outs := by
  induction rows generalizing g outs with
  | nil =>
    simp only [transformLine, Except.ok.injEq, Prod.mk.injEq] at h
    rw [← h.2]
    exact List.Forall₂.nil
  | cons r rs ih =>
    simp only [transformLine] at h
    cases hr : transformRow g r with
    | error e => rw [hr] at h; cases h
    | ok p =>
      obtain ⟨ga, o⟩ := p
      rw [hr] at h
      simp only at h
      cases hrs : transformLine ga rs with
      | error e => rw [hrs] at h; cases h
      | ok q =>
        obtain ⟨gb, os⟩ := q
        rw [hrs] at h
        simp only [Except.ok.injEq, Prod.mk.injEq] at h
        obtain ⟨h1, h2⟩ := h
        subst h1 h2
        refine List.Forall₂.cons ⟨ga, hr⟩ ?_
        have hga : ga = { g with label := labelAfter g r } :=
          ((transformRow_ok_iff g ga r o).1 hr).1
        have := ih ga os hrs
        refine this.imp ?_
        rintro r2 o2 ⟨g2, h2⟩
        rw [hga, transformRow_after] at h2
        exact ⟨g2, h2⟩

/-- When every record is transformed without failure, the schedule `oneByOne` runs a pipeline
with one worker to its end. -/
theorem oneByOne_runs (g g1 : Globals) (rows : List (List String)) (outs w : List String)
    (cap : Nat) (hcap : 0 < cap) (h : transformLine g rows = .ok (g1, outs)) :
    exec { g := g, cap := cap, input := rows, lines := [], linesClosed := false,
           workers := [.waiting], newlines := [], newlinesClosed := false, written := w,
           finished := false, crashed := none } (oneByOne rows) =
      some { g := g1, cap := cap, input := [], lines := [], linesClosed := true,
             workers := [.exited], newlines := [], newlinesClosed := true, written := w ++ outs,
             finished := true, crashed := none } := by
  induction rows generalizing g outs w with
  | nil =>
    simp only [transformLine, Except.ok.injEq, Prod.mk.injEq] at h
    obtain ⟨h1, h2⟩ := h
    subst h1 h2
    simp [oneByOne, exec, step]
  | cons r rs ih =>
    simp only [transformLine] at h
    cases hr : transformRow g r with
    | error e => rw [hr] at h; cases h
    | ok p =>
      obtain ⟨ga, o⟩ := p
      rw [hr] at h
      simp only at h
      cases hrs : transformLine ga rs with
      | error e => rw [hrs] at h; cases h
      | ok q =>
        obtain ⟨gb, os⟩ := q
        rw [hrs] at h
        simp only [Except.ok.injEq, Prod.mk.injEq] at h
        obtain ⟨h1, h2⟩ := h
        subst h1 h2
        have := ih ga os (w ++ [o]) hrs
        simp only [List.append_assoc, List.singleton_append] at this
        simp [oneByOne, exec, step, hcap, hr, this]

theorem setup_rows (f : Flags) (input : List (List String)) (g0 : Globals)
    (rows : List (List String)) (h : setup f input = .ok (g0, rows)) :
    rows = (if f.useheader = true ∨ f.hasheader = true then input.tail else input) ∧
    ((f.useheader = true ∨ f.hasheader = true) → input ≠ []) := by
  unfold setup at h
  simp only at h
  split at h
  · cases h
  · rename_i headerrow header rest hfirst
    split at h
    · cases h
    · split at h
      · cases h
      · split at h
        · cases h
        · split at h
          · cases h
          · split at h
            · cases h
            · simp only [Except.ok.injEq, Prod.mk.injEq] at h
              obtain ⟨_, hrest⟩ := h
              subst hrest
              cases hu : f.useheader <;> cases hh : f.hasheader <;>
                cases input <;> simp [hu, hh] at hfirst ⊢ <;> simp [hfirst]

/-! ## Claims on the pipeline driver -/

/-- C10: in a run with one worker, the data rows are the records of the input, without the
first one when a header is read; whatever the order in which the reader, the worker and the
writer take their steps, a run that ends without a failure has written, in input order, the
string of the row transformer for each data row, so the string at position `k` comes from
the `k`-th data row and there are as many strings as data rows; and such a run exists when
every data row is transformed without failure. -/
theorem C10_order_and_count (f : Flags) (numCPU : Nat) (input : List (List String))
    (g0 : Globals) (rows : List (List String)) (hN : workerCount f.NCPU numCPU = 1)
    (hsetup : setup f input = .ok (g0, rows)) :
    rows = (if f.useheader = true ∨ f.hasheader = true then input.tail else input) ∧
    (∀ (schedule : List Action) (s : Pipeline),
      exec (start g0 rows (workerCount f.NCPU numCPU)) schedule = some s → s.finished = true →
        List.Forall₂ (fun r o => ∃ g1, transformRow g0 r = .ok (g1, o)) rows s.written ∧
        s.written.length = rows.length) ∧
    ((∃ g1 outs, transformLine g0 rows = .ok (g1, outs)) →
      ∃ s, exec (start g0 rows (workerCount f.NCPU numCPU)) (oneByOne rows) = some s ∧
        s.finished = true) := by
  rw [hN]
  refine ⟨(setup_rows f input g0 rows hsetup).1, ?_, ?_⟩
  · intro schedule s hexec hfin
    have hinv := exec_inv g0 rows schedule _ s (start_inv g0 rows) hexec
    have hall := transformLine_pointwise g0 s.g rows s.written
      (finished_written g0 rows s hinv hfin)
    exact ⟨hall, hall.length_eq.symm⟩
  · rintro ⟨g1, outs, h⟩
    exact ⟨_, oneByOne_runs g0 g1 rows outs [] 10 (by decide) h, rfl⟩

/-- C10 at scenario S2: the header row is left out and the two lines are written in the
order of the two data rows. -/
theorem C10_order_and_count_witness :
    (exec (start cfgNamed inputS2.tail 1) (oneByOne inputS2.tail)).map (fun s => s.written) =
      some ["1 |n b:2 c=hello \n", "-1 |n a:3 c=world \n"] ∧
    (inputS2.tail = (if flagsS2.useheader = true ∨ flagsS2.hasheader = true then inputS2.tail
      else inputS2) ∧
    (∀ (schedule : List Action) (s : Pipeline),
      exec (start cfgNamed inputS2.tail (workerCount flagsS2.NCPU 8)) schedule = some s →
        s.finished = true →
        List.Forall₂ (fun r o => ∃ g1, transformRow cfgNamed r = .ok (g1, o)) inputS2.tail
          s.written ∧
        s.written.length = inputS2.tail.length) ∧
    ((∃ g1 outs, transformLine cfgNamed inputS2.tail = .ok (g1, outs)) →
      ∃ s, exec (start cfgNamed inputS2.tail (workerCount flagsS2.NCPU 8))
          (oneByOne inputS2.tail) = some s ∧
        s.finished = true)) :=
  ⟨by decide,
    C10_order_and_count flagsS2 8 inputS2 cfgNamed inputS2.tail (by decide) (by decide)⟩

/-! ## Further claims on the column resolver -/

theorem splitCommas_ne_nil (cs cur : List Char) : splitCommas cs cur ≠ [] := by
  induction cs generalizing cur with
  | nil => simp [splitCommas]
  | cons c cs ih =>
    simp only [splitCommas]
    split
    · simp
    · exact ih _

theorem splitCommas_join (cs cur : List Char) :
    List.intercalate [','] ((splitCommas cs cur).map String.data) = cur.reverse ++ cs := by
  induction cs generalizing cur with
  | nil => simp [splitCommas, List.intercalate]
  | cons c cs ih =>
    simp only [splitCommas]
    by_cases hc : c = ','
    · simp only [hc, if_true, List.map_cons]
      have h2 := ih []
      cases hsp : splitCommas cs [] with
      | nil => exact absurd hsp (splitCommas_ne_nil cs [])
      | cons p ps =>
        rw [hsp] at h2
        simp only [List.intercalate, List.map_cons, List.intersperse, List.flatten_cons,
          List.reverse_nil, List.nil_append] at h2 ⊢
        rw [h2]
        simp
    · simp only [hc, if_false]
      rw [ih (c :: cur)]
      simp

theorem splitCommas_no_comma (cs cur : List Char) (hcur : ',' ∉ cur) :
    ∀ p ∈ splitCommas cs cur, ',' ∉ p.data := by
  induction cs generalizing cur with
  | nil =>
    intro p hp
    simp only [splitCommas, List.mem_singleton] at hp
    subst hp
    simpa using hcur
  | cons c cs ih =>
    intro p hp
    simp only [splitCommas] at hp
    by_cases hc : c = ','
    · simp only [hc, if_true, List.mem_cons] at hp
      rcases hp with hp | hp
      · subst hp
        simpa using hcur
      · exact ih [] (by simp) p hp
    · simp only [hc, if_false] at hp
      refine ih (c :: cur) ?_ p hp
      simp only [List.mem_cons, not_or]
      exact ⟨fun h => hc h.symm, hcur⟩

theorem parseIndicesLoop_ok (header : HeaderMap) (hasheader : Bool) (vs : List String)
    (i : intmap)
    (hres : ∀ v ∈ vs, v ≠ "" → ∃ k, parseIndex header hasheader v = .ok k) :
    ∃ i1, parseIndicesLoop header hasheader vs i = .ok i1 ∧
      ∀ k, k ∈ i1 ↔ (k ∈ i ∨ ∃ v ∈ vs, v ≠ "" ∧ parseIndex header hasheader v = .ok k) := by
  induction vs generalizing i with
  | nil => exact ⟨i, rfl, by simp⟩
  | cons v vs ih =>
    have hres2 : ∀ w ∈ vs, w ≠ "" → ∃ k, parseIndex header hasheader w = .ok k :=
      fun w hw => hres w (List.mem_cons_of_mem _ hw)
    simp only [parseIndicesLoop]
    by_cases hv : v = ""
    · simp only [hv, ne_eq, not_true_eq_false, if_false]
      obtain ⟨i1, h1, h2⟩ := ih i hres2
      refine ⟨i1, h1, fun k => ?_⟩
      rw [h2 k]
      simp
    · obtain ⟨k0, hk0⟩ := hres v (List.mem_cons_self _ _) hv
      simp only [ne_eq, hv, not_false_eq_true, if_true, hk0]
      obtain ⟨i1, h1, h2⟩ := ih (k0 :: i) hres2
      refine ⟨i1, h1, fun k => ?_⟩
      rw [h2 k]
      simp only [List.mem_cons, exists_eq_or_imp, hv, not_false_eq_true, hk0, Except.ok.injEq,
        true_and, ne_eq]
      constructor
      · rintro ((h | h) | h)
        · exact Or.inr (Or.inl h.symm)
        · exact Or.inl h
        · exact Or.inr (Or.inr h)
      · rintro (h | h | h)
        · exact Or.inl (Or.inr h)
        · exact Or.inl (Or.inl h.symm)
        · exact Or.inr h

/-- C12: when every non-empty entry of the list string between commas is resolvable,
`parseIndices` returns, and the keys of the map are then the keys it had and the indices
`parseIndex` gives for the non-empty entries; empty entries add nothing, and the empty
string leaves the map as it was.  The entries are the pieces of the string between its
commas: none holds a comma, and joined by commas they give the string back. -/
theorem C12_specifier_lists (header : HeaderMap) (hasheader : Bool) (i : intmap) (s : String)
    (hres : ∀ v ∈ Split s, v ≠ "" → ∃ k, parseIndex header hasheader v = .ok k) :
    (∃ i1, parseIndices header hasheader i s = .ok i1 ∧
      ∀ k, k ∈ i1 ↔
        (k ∈ i ∨ ∃ v ∈ Split s, v ≠ "" ∧ parseIndex header hasheader v = .ok k)) ∧
    parseIndices header hasheader i "" = .ok i ∧
    (∀ p ∈ Split s, ',' ∉ p.data) ∧
    List.intercalate [','] ((Split s).map String.data) = s.data := by
  refine ⟨parseIndicesLoop_ok header hasheader (Split s) i hres, ?_, ?_, ?_⟩
  · simp [parseIndices, Split, splitCommas, parseIndicesLoop]
  · exact splitCommas_no_comma s.data [] (by simp)
  · simpa using splitCommas_join s.data []

/-- C12 at the list `c,,1` under the header `y,a,b,c`: the keys 3 and 1 are added to the
key 7. -/
theorem C12_specifier_lists_witness :
    parseIndices cfgNamed.header true [7] "c,,1" = .ok [1, 3, 7] ∧
    ((∃ i1, parseIndices cfgNamed.header true [7] "c,,1" = .ok i1 ∧
      ∀ k, k ∈ i1 ↔
        (k ∈ [7] ∨ ∃ v ∈ Split "c,,1", v ≠ "" ∧ parseIndex cfgNamed.header true v = .ok k)) ∧
    parseIndices cfgNamed.header true [7] "" = .ok [7] ∧
    (∀ p ∈ Split "c,,1", ',' ∉ p.data) ∧
    List.intercalate [','] ((Split "c,,1").map String.data) = "c,,1".data) :=
  ⟨by decide, C12_specifier_lists cfgNamed.header true [7] "c,,1" (by
    intro v hv hne
    have hs : Split "c,,1" = ["c", "", "1"] := by decide
    rw [hs] at hv
    simp only [List.mem_cons, List.mem_singleton, List.not_mem_nil, or_false] at hv
    rcases hv with rfl | rfl | rfl
    · exact ⟨3, by decide⟩
    · exact absurd rfl hne
    · exact ⟨1, by decide⟩)⟩

/-- C13: the mapping built from a header row has exactly the names of the row as keys, as
they are written, and binds each name to the greatest position at which it occurs. -/
theorem C13_header_mapping (headerrow : List String) (n : String) :
    ((fillHeader headerrow 0 []).lookup n ≠ none ↔ n ∈ headerrow) ∧
    (∀ k : Int, (fillHeader headerrow 0 []).lookup n = some k →
      ∃ i : Nat, k = (i : Int) ∧ headerrow.get? i = some n ∧
        ∀ j, i < j → headerrow.get? j ≠ some n) := by
  by_cases hn : n ∈ headerrow
  · obtain ⟨i, h1, h2, h3⟩ := fillHeader_lookup_mem headerrow 0 [] n hn
    simp only [Nat.zero_add] at h1
    refine ⟨by simp [h1, hn], ?_⟩
    intro k hk
    rw [h1] at hk
    exact ⟨i, (Option.some.inj hk).symm, h2, h3⟩
  · have h := fillHeader_lookup_not_mem headerrow 0 [] n hn
    simp only [List.lookup] at h
    refine ⟨by simp [h, hn], ?_⟩
    intro k hk
    rw [h] at hk
    cases hk

/-! ## Further claims on the row transformer -/

theorem transformLine_then (g0 g1 : Globals) (before : List (List String))
    (outs : List String) (hrun : transformLine g0 before = .ok (g1, outs))
    (line : List String) : transformRow g1 line = transformRow g0 line := by
  induction before generalizing g0 outs with
  | nil =>
    simp only [transformLine, Except.ok.injEq, Prod.mk.injEq] at hrun
    rw [← hrun.1]
  | cons r rs ih =>
    simp only [transformLine] at hrun
    cases hr : transformRow g0 r with
    | error e => rw [hr] at hrun; cases hrun
    | ok p =>
      obtain ⟨ga, o⟩ := p
      rw [hr] at hrun
      simp only at hrun
      cases hrs : transformLine ga rs with
      | error e => rw [hrs] at hrun; cases hrun
      | ok q =>
        obtain ⟨gb, os⟩ := q
        rw [hrs] at hrun
        simp only [Except.ok.injEq, Prod.mk.injEq] at hrun
        obtain ⟨h1, _⟩ := hrun
        subst h1
        rw [ih ga os hrs, ((transformRow_ok_iff g0 ga r o).1 hr).1, transformRow_after]

/-- C14: in a sequential run from the resolver output `g0`, the result of the row
transformer on a row is the same after any rows transformed before it: it is the result on
the row with the resolver output itself, so two histories give the same line. -/
theorem C14_stateless (g0 g1 g2 : Globals) (before1 before2 : List (List String))
    (outs1 outs2 : List String) (line : List String)
    (h1 : transformLine g0 before1 = .ok (g1, outs1))
    (h2 : transformLine g0 before2 = .ok (g2, outs2)) :
    transformRow g1 line = transformRow g0 line ∧
    (transformRow g1 line).map Prod.snd = (transformRow g2 line).map Prod.snd := by
  have e1 := transformLine_then g0 g1 before1 outs1 h1 line
  have e2 := transformLine_then g0 g2 before2 outs2 h2 line
  exact ⟨e1, by rw [e1, e2]⟩

/-- C14 under `-l -1`: after a row of three cells and after no row at all, the row `7,8`
gives the same line. -/
theorem C14_stateless_witness :
    (transformRow { cfgLast with label := 2 } ["7", "8"]).map Prod.snd = .ok "8 7 |n \n" ∧
    (transformRow { cfgLast with label := 2 } ["7", "8"] = transformRow cfgLast ["7", "8"] ∧
    (transformRow { cfgLast with label := 2 } ["7", "8"]).map Prod.snd =
      (transformRow cfgLast ["7", "8"]).map Prod.snd) :=
  ⟨by decide,
    C14_stateless cfgLast { cfgLast with label := 2 } cfgLast [["0.5", "x", ""]] []
      [" 0.5 |n \n"] [] ["7", "8"] (by decide) (by decide)⟩

/-- C15: under `-l -1` with the label emitted, transforming a row of three cells assigns the
variable `label`: the label index, -1 after resolution, is 2 afterwards. -/
theorem C15_label_assigned :
    ∃ g1 out, transformRow cfgLast ["0.5", "x", ""] = .ok (g1, out) ∧
      cfgLast.label = -1 ∧ g1.label = 2 ∧ g1 ≠ cfgLast :=
  ⟨{ cfgLast with label := 2 }, " 0.5 |n \n", by decide, by decide, by decide, by decide⟩

/-- Transforming a row assigns no variable other than `label`, and `label` only when the
label is emitted and the label specifier is `-1`; it then becomes `row_length - 1`. -/
theorem transformRow_frame (g g1 : Globals) (line : List String) (out : String)
    (h : transformRow g line = .ok (g1, out)) :
    g1.id = g.id ∧ g1.importance = g.importance ∧ g1.nominal = g.nominal ∧
    g1.remove = g.remove ∧ g1.hasheader = g.hasheader ∧ g1.useheader = g.useheader ∧
    g1.predictonly = g.predictonly ∧ g1.labelS = g.labelS ∧ g1.headerrow = g.headerrow ∧
    g1.header = g.header ∧
    g1.label = (if g.predictonly = false ∧ g.labelS = "-1" then (line.length : Int) - 1
      else g.label) := by
  have hg := ((transformRow_ok_iff g g1 line out).1 h).1
  subst hg
  refine ⟨rfl, rfl, rfl, rfl, rfl, rfl, rfl, rfl, rfl, rfl, ?_⟩
  simp only [labelAfter, labelInEffect]
  cases hp : g.predictonly <;> by_cases hl : g.labelS = "-1" <;> simp [hl]

/-! ## Claims on the pipeline with several workers -/

/-- The row transformer is the assignment to `label` followed by the building of the
string from the variables after it. -/
theorem transformRow_eq_build (g : Globals) (line : List String) :
    transformRow g line =
      match buildRow (assignLabel g line) line with
      | .error e => .error e
      | .ok nl => .ok (assignLabel g line, nl) := by
  unfold transformRow buildRow writeLabel writeLabelCell assignLabel
  cases hp : g.predictonly
  · by_cases hl : g.labelS = "-1"
    · simp only [hl, if_true, Bool.not_false]
      cases index line ((line.length : Int) - 1) with
      | error e => rfl
      | ok v =>
        simp only
        split <;> [rfl; skip]
        split <;> [rfl; skip]
        split <;> rfl
    · simp only [hl, if_false, Bool.not_false, if_true, hp]
      cases index line g.label with
      | error e => rfl
      | ok v =>
        simp only
        split <;> [rfl; skip]
        split <;> [rfl; skip]
        split <;> rfl
  · simp only [Bool.not_true, Bool.false_eq_true, if_false, hp]
    split <;> [rfl; skip]
    split <;> [rfl; skip]
    split <;> rfl

/-- C16: with two workers, the label specifier `-1` and the rows `1,2,3` and `7`, there is
an interleaving that runs to the end and writes `1 |n 1:2 2:3 ` for the first row, although
the row transformer gives `3 |n 0:1 1:2 ` for it: the line of the first row is not among the
lines written.  In another interleaving the lines written are those of the row
transformer. -/
theorem C16_label_race :
    (poolExec (poolStart cfgLastOnly [["1", "2", "3"], ["7"]] 2) raceSchedule).map
        (fun s => (s.finished, s.written)) =
      some (true, ["1 |n 1:2 2:3 \n", "7 |n \n"]) ∧
    (transformLine cfgLastOnly [["1", "2", "3"], ["7"]]).map Prod.snd =
      .ok ["3 |n 0:1 1:2 \n", "7 |n \n"] ∧
    "3 |n 0:1 1:2 \n" ∉ ["1 |n 1:2 2:3 \n", "7 |n \n"] ∧
    (poolExec (poolStart cfgLastOnly [["1", "2", "3"], ["7"]] 2) calmSchedule).map
        (fun s => (s.finished, s.written)) =
      some (true, ["3 |n 0:1 1:2 \n", "7 |n \n"]) := by
  decide

/-- C17, as stated, fails: with header recognition disabled the record `a,b,c` is a data row,
and the run of scenario S3 writes two lines, `c |n ` before `3 |n 0:1 1:2 `. -/
theorem C17_scenario_S3_counterexample :
    setup flagsS3 inputS3 = .ok (cfgLastOnly, inputS3) ∧
    (exec (start cfgLastOnly inputS3 1) (oneByOne inputS3)).map
        (fun s => (s.finished, s.written)) =
      some (true, ["c |n \n", "3 |n 0:1 1:2 \n"]) ∧
    concatAll ["c |n \n", "3 |n 0:1 1:2 \n"] ≠ "3 |n 0:1 1:2 \n" := by
  decide

/-- C17, amended: for the two records `a,b,c` and `1,2,3`, the label specifier `-1`, no tag, no
importance, empty nominal and remove sets and one worker, with header recognition disabled
every run that ends has written `c |n ` and `3 |n 0:1 1:2 `, each followed by a newline, and
such a run exists; with header recognition enabled every run that ends has written exactly
`3 |n 0:1 1:2 ` followed by a newline, and such a run exists. -/
theorem C17_scenario_S3 :
    setup flagsS3 inputS3 = .ok (cfgLastOnly, inputS3) ∧
    (∀ (schedule : List Action) (s : Pipeline),
      exec (start cfgLastOnly inputS3 (workerCount flagsS3.NCPU 8)) schedule = some s →
      s.finished = true →
        s.written = ["c |n \n", "3 |n 0:1 1:2 \n"] ∧
        concatAll s.written = "c |n \n3 |n 0:1 1:2 \n") ∧
    (∃ s, exec (start cfgLastOnly inputS3 1) (oneByOne inputS3) = some s ∧
      s.finished = true) ∧
    setup { flagsS3 with hasheader := true } inputS3 =
      .ok (cfgLastHeader, [["1", "2", "3"]]) ∧
    (∀ (schedule : List Action) (s : Pipeline),
      exec (start cfgLastHeader [["1", "2", "3"]] 1)
        schedule = some s →
      s.finished = true →
        s.written = ["3 |n 0:1 1:2 \n"] ∧ concatAll s.written = "3 |n 0:1 1:2 \n") ∧
    (∃ s, exec (start cfgLastHeader [["1", "2", "3"]] 1)
        (oneByOne [["1", "2", "3"]]) = some s ∧ s.finished = true) := by
  refine ⟨by decide, ?_, ?_, by decide, ?_, ?_⟩
  · intro schedule s hexec hfin
    have hinv := exec_inv cfgLastOnly inputS3 schedule _ s (start_inv cfgLastOnly inputS3) hexec
    have hw := finished_written cfgLastOnly inputS3 s hinv hfin
    have hseq : (transformLine cfgLastOnly inputS3).map Prod.snd =
        .ok ["c |n \n", "3 |n 0:1 1:2 \n"] := by decide
    rw [hw] at hseq
    simp only [Except.map, Except.ok.injEq] at hseq
    rw [hseq]
    exact ⟨rfl, by decide⟩
  · exact ⟨_, oneByOne_runs cfgLastOnly _ inputS3 _ [] 10 (by decide)
      (show transformLine cfgLastOnly inputS3 =
        .ok ({ cfgLastOnly with label := 2 }, ["c |n \n", "3 |n 0:1 1:2 \n"]) by decide), rfl⟩
  · intro schedule s hexec hfin
    have hinv := exec_inv _ _ schedule _ s (start_inv _ _) hexec
    have hw := finished_written _ _ s hinv hfin
    have hseq : (transformLine cfgLastHeader
        [["1", "2", "3"]]).map Prod.snd = .ok ["3 |n 0:1 1:2 \n"] := by decide
    rw [hw] at hseq
    simp only [Except.map, Except.ok.injEq] at hseq
    rw [hseq]
    exact ⟨rfl, by decide⟩
  · exact ⟨_, oneByOne_runs _ _ [["1", "2", "3"]] _ [] 10 (by decide)
      (show transformLine cfgLastHeader
          [["1", "2", "3"]] =
        .ok ({ cfgLastHeader with label := 2 },
          ["3 |n 0:1 1:2 \n"]) by decide), rfl⟩

/-- C18: in prediction-only mode the code does not recompute the label index, and the last
cell of the row is written as a feature.  The specifier `-1` resolves to the index -1.  On
every non-empty row under that specifier: with the label emitted the variable `label`
becomes `row_length - 1` and no line produced has a token for the last cell; in
prediction-only mode the variable `label` keeps its value and the features of a line
produced are those of the cells that qualify with that value as the label index.  So under
`-nolabel -l -1` the row `1,2,3` gives `|n 0:1 1:2 2:3 `, with the last cell as the feature
`2:3`, where `-nolabel -l 2` gives `|n 0:1 1:2 ` and `-l -1` gives `3 |n 0:1 1:2 `. -/
theorem C18_sentinel_leak :
    (∀ (header : HeaderMap) (hasheader : Bool), parseIndex header hasheader "-1" = .ok (-1)) ∧
    (cfgPredictLast.labelS = "-1" ∧ cfgPredictLast.label = -1 ∧
      cfgPredictLast.predictonly = true) ∧
    transformRow cfgPredictLast ["1", "2", "3"] = .ok (cfgPredictLast, "|n 0:1 1:2 2:3 \n") ∧
    (2, "3") ∈ emittedCells cfgPredictLast (labelAfter cfgPredictLast ["1", "2", "3"])
      ["1", "2", "3"] 0 ∧
    transformRow cfgPredictTwo ["1", "2", "3"] = .ok (cfgPredictTwo, "|n 0:1 1:2 \n") ∧
    transformRow cfgLastOnly ["1", "2", "3"] =
      .ok ({ cfgLastOnly with label := 2 }, "3 |n 0:1 1:2 \n") ∧
    (∀ (g g1 : Globals) (line : List String) (out : String), g.labelS = "-1" → line ≠ [] →
      transformRow g line = .ok (g1, out) →
      (g.predictonly = false →
        g1.label = (line.length : Int) - 1 ∧
        (∀ p ∈ emittedCells g ((line.length : Int) - 1) line 0, p.1 ≠ line.length - 1) ∧
        ∃ pre, out = pre ++ "|n " ++ featureSection g ((line.length : Int) - 1) line ++ "\n") ∧
      (g.predictonly = true →
        g1.label = g.label ∧
        ∃ pi pt, importancePart g line = some pi ∧ tagPart g line = some pt ∧
          out = pi ++ pt ++ "|n " ++ featureSection g g.label line ++ "\n" ∧
          (g.label = -1 → ∀ v, line.get? (line.length - 1) = some v →
            ((line.length - 1, v) ∈ emittedCells g g.label line 0 ↔
              (v ≠ "" ∧ ((line.length - 1 : Nat) : Int) ≠ g.id ∧
                ((line.length - 1 : Nat) : Int) ≠ g.importance ∧
                ((line.length - 1 : Nat) : Int) ∉ g.remove ∧
                (((line.length - 1 : Nat) : Int) ∈ g.nominal ∨ parsesNonzero v = true)))))) := by
  refine ⟨fun header hasheader => parseIndex_of_ok header hasheader "-1" (-1) (by decide),
    by decide, by decide, by decide, by decide, by decide, ?_⟩
  intro g g1 line out hl hne h
  have hpos : 0 < line.length := List.length_pos.2 hne
  obtain ⟨hg1, _, pl, pi, pt, hpl, hpi, hpt, hout⟩ := (transformRow_ok_iff g g1 line out).1 h
  constructor
  · intro hp
    have hlab : labelAfter g line = (line.length : Int) - 1 := by
      simp [labelAfter, labelInEffect, hp, hl]
    rw [hlab] at hout hg1
    refine ⟨by rw [hg1], ?_, pl ++ pi ++ pt, hout⟩
    intro p hp2 heq
    have hem := ((mem_emittedCells g _ line p).1 hp2).2
    simp only [emits, decide_eq_true_eq] at hem
    apply hem.2.1
    rw [heq]
    omega
  · intro hp
    have hlab : labelAfter g line = g.label := by simp [labelAfter, hp]
    rw [hlab] at hout hg1
    have hpl2 : pl = "" := by
      simp only [labelPart, hp, if_true, Option.some.injEq] at hpl
      exact hpl.symm
    subst hpl2
    refine ⟨by rw [hg1], pi, pt, hpi, hpt, ?_, ?_⟩
    · rw [hout]
      simp only [String.append_assoc]
      rfl
    · intro hm v hv
      rw [mem_emittedCells, hm]
      simp only [hv, true_and, emits, decide_eq_true_eq]
      constructor
      · rintro ⟨h1, _, h3, h4, h5, h6⟩
        exact ⟨h1, h3, h4, h5, h6⟩
      · rintro ⟨h1, h3, h4, h5, h6⟩
        exact ⟨h1, by omega, h3, h4, h5, h6⟩

theorem parseDigits_digits (cs : List Char) (acc : Nat)
    (h : ∀ c ∈ cs, 48 ≤ c.toNat ∧ c.toNat ≤ 57) :
    parseDigits cs acc = some (cs.foldl (fun a c => a * 10 + (c.toNat - 48)) acc) := by
  induction cs generalizing acc with
  | nil => rfl
  | cons c cs ih =>
    have hc := h c (List.mem_cons_self _ _)
    simp only [parseDigits, digitVal, hc, and_self, if_true, List.foldl_cons]
    exact ih _ (fun d hd => h d (List.mem_cons_of_mem _ hd))

theorem Atoi_digits (s : String) (h : AllDigits s) :
    Atoi s = if decimalValue s.data < 2 ^ 63 then .ok (decimalValue s.data : Int)
      else .error .ErrRange := by
  obtain ⟨hne, hd⟩ := h
  unfold Atoi decimalValue
  cases hs : s.data with
  | nil => exact absurd hs hne
  | cons c cs =>
    rw [hs] at hd
    have hc := hd c (List.mem_cons_self _ _)
    have h1 : c ≠ '-' := by
      intro hh
      rw [hh] at hc
      revert hc
      decide
    have h2 : c ≠ '+' := by
      intro hh
      rw [hh] at hc
      revert hc
      decide
    simp only [h1, h2, if_false, parseUnsigned, parseDigits_digits (c :: cs) 0 hd]

theorem dropOneUnderscore_digits (s : String) (h : AllDigits s) : dropOneUnderscore s = s := by
  obtain ⟨hne, hd⟩ := h
  unfold dropOneUnderscore
  cases hs : s.data with
  | nil => exact absurd hs hne
  | cons c cs =>
    rw [hs] at hd
    have hc := hd c (List.mem_cons_self _ _)
    have h1 : c ≠ '_' := by
      intro hh
      rw [hh] at hc
      revert hc
      decide
    simp [h1]

/-- C19, as stated, fails: the specifier `9223372036854775808` consists of digits only, but
its value does not fit the type `int`; `parseIndex` looks it up as a name and returns the
index 1 of the column so named. -/
theorem C19_long_digits_counterexample :
    AllDigits "9223372036854775808" ∧
    decimalValue "9223372036854775808".data = 9223372036854775808 ∧
    Atoi "9223372036854775808" = .error .ErrRange ∧
    parseIndex headerBig true "9223372036854775808" = .ok 1 := by
  decide

/-- C19, amended: for every non-empty specifier consisting only of decimal digits whose value
is less than `2^63`, and every header mapping, also one that has the digit string as a
column name, `parseIndex` returns the value of the specifier; a digit string with a greater
value is not an integer for `strconv.Atoi` and is looked up as a name. -/
theorem C19_digits_are_positions (s : String) (hd : AllDigits s) :
    (decimalValue s.data < 2 ^ 63 →
      Atoi s = .ok (decimalValue s.data : Int) ∧
      ∀ (header : HeaderMap) (hasheader : Bool),
        parseIndex header hasheader s = .ok (decimalValue s.data : Int)) ∧
    (2 ^ 63 ≤ decimalValue s.data →
      Atoi s = .error .ErrRange ∧
      ∀ (header : HeaderMap) (hasheader : Bool) (idx : Int), header.lookup s = some idx →
        parseIndex header hasheader s = .ok idx) := by
  have ha := Atoi_digits s hd
  constructor
  · intro hlt
    rw [if_pos hlt] at ha
    exact ⟨ha, fun header hasheader => parseIndex_of_ok header hasheader s _ ha⟩
  · intro hge
    rw [if_neg (by omega)] at ha
    refine ⟨ha, fun header hasheader idx hl => ?_⟩
    rw [parseIndex_of_error header hasheader s _ ha, dropOneUnderscore_digits s hd, hl]

/-- C19 at the specifier `1` under the header `0,1,1`, where the name `1` has index 2. -/
theorem C19_digits_are_positions_witness :
    parseIndex (fillHeader ["0", "1", "1"] 0 []) true "1" = .ok 1 ∧
    ((decimalValue "1".data < 2 ^ 63 →
      Atoi "1" = .ok (decimalValue "1".data : Int) ∧
      ∀ (header : HeaderMap) (hasheader : Bool),
        parseIndex header hasheader "1" = .ok (decimalValue "1".data : Int)) ∧
    (2 ^ 63 ≤ decimalValue "1".data →
      Atoi "1" = .error .ErrRange ∧
      ∀ (header : HeaderMap) (hasheader : Bool) (idx : Int), header.lookup "1" = some idx →
        parseIndex header hasheader "1" = .ok idx)) :=
  ⟨by decide, C19_digits_are_positions "1" (by decide)⟩

theorem cellAt_none_iff (line : List String) (k : Int) :
    cellAt line k = none ↔ ¬(0 ≤ k ∧ k < (line.length : Int)) := by
  unfold cellAt
  by_cases hk : 0 ≤ k
  · simp only [hk, if_true, true_and, List.get?_eq_none, not_lt]
    omega
  · simp [hk]

theorem index_error (a : List String) (k : Int) (e : Failure) (h : index a k = .error e) :
    e = .indexOutOfRange := by
  unfold index at h
  split at h
  · split at h
    · cases h
    · cases h; rfl
  · cases h; rfl

theorem featureLoop_error (g : Globals) (vs : List String) (i : Nat) (nl : String)
    (e : Failure) (h : featureLoop g vs i nl = .error e) : e = .indexOutOfRange := by
  induction vs generalizing i nl with
  | nil => simp [featureLoop] at h
  | cons v vs ih =>
    simp only [featureLoop] at h
    split at h
    · exact ih _ _ h
    · split at h
      · split at h
        · exact ih _ _ h
        · split at h
          · rename_i e1 hk
            cases h
            split at hk
            · cases hk
            · exact index_error _ _ _ hk
          · exact ih _ _ h
      · exact ih _ _ h

theorem transformRow_error (g : Globals) (line : List String) (e : Failure)
    (h : transformRow g line = .error e) : e = .indexOutOfRange := by
  rw [transformRow_eq_build] at h
  split at h
  · rename_i e1 hb
    cases h
    unfold buildRow at hb
    split at hb
    · rename_i e2 h1
      cases hb
      unfold writeLabelCell at h1
      split at h1
      · split at h1
        · rename_i e3 h2
          cases h1
          exact index_error _ _ _ h2
        · cases h1
      · cases h1
    · split at hb
      · rename_i e2 h1
        cases hb
        unfold writeImportance at h1
        split at h1
        · split at h1
          · rename_i e3 h2
            cases h1
            exact index_error _ _ _ h2
          · cases h1
        · cases h1
      · split at hb
        · rename_i e2 h1
          cases hb
          unfold writeTag at h1
          split at h1
          · split at h1
            · rename_i e3 h2
              cases h1
              exact index_error _ _ _ h2
            · cases h1
          · cases h1
        · split at hb
          · rename_i e2 h1
            cases hb
            exact featureLoop_error _ _ _ _ _ h1
          · cases hb
  · cases h

/-- C20: the row transformer fails on a row, with an index out of range and without a line,
if and only if the label is emitted and the label index in effect is not a position of the
row, or the importance index is greater than -1 and not less than the row length, or the
tag index is greater than -1 and not less than the row length, or header names are used and
a cell that yields a token has a column index not less than the length of the header row;
in every other case it produces a line. -/
theorem C20_out_of_range (g : Globals) (line : List String) :
    ((∃ e, transformRow g line = .error e) ↔
      ((g.predictonly = false ∧
          ¬(0 ≤ labelInEffect g line ∧ labelInEffect g line < (line.length : Int))) ∨
        (g.importance > -1 ∧ ¬g.importance < (line.length : Int)) ∨
        (g.id > -1 ∧ ¬g.id < (line.length : Int)) ∨
        (g.useheader = true ∧ ∃ p ∈ emittedCells g (labelAfter g line) line 0,
          ¬p.1 < g.headerrow.length))) ∧
    (∀ e, transformRow g line = .error e → e = .indexOutOfRange) ∧
    ((∃ e, transformRow g line = .error e) ∨ ∃ g1 out, transformRow g line = .ok (g1, out)) := by
  have hl : labelPart g line = none ↔ (g.predictonly = false ∧
      ¬(0 ≤ labelInEffect g line ∧ labelInEffect g line < (line.length : Int))) := by
    unfold labelPart
    cases hp : g.predictonly
    · simp only [Bool.false_eq_true, if_false, Option.map_eq_none', cellAt_none_iff, true_and]
    · simp
  have hi : importancePart g line = none ↔
      (g.importance > -1 ∧ ¬g.importance < (line.length : Int)) := by
    unfold importancePart
    by_cases h : g.importance > -1
    · simp only [h, if_true, Option.map_eq_none', cellAt_none_iff, true_and]
      omega
    · simp [h]
  have ht : tagPart g line = none ↔ (g.id > -1 ∧ ¬g.id < (line.length : Int)) := by
    unfold tagPart
    by_cases h : g.id > -1
    · simp only [h, if_true, cellAt_none_iff, true_and]
      omega
    · simp [h]
  have hok : (∃ g1 out, transformRow g line = .ok (g1, out)) ↔
      (labelPart g line ≠ none ∧ importancePart g line ≠ none ∧ tagPart g line ≠ none ∧
        (g.useheader = true → ∀ p ∈ emittedCells g (labelAfter g line) line 0,
          p.1 < g.headerrow.length)) := by
    constructor
    · rintro ⟨g1, out, h⟩
      obtain ⟨_, hh, pl, pi, pt, hpl, hpi, hpt, _⟩ := (transformRow_ok_iff g g1 line out).1 h
      exact ⟨by simp [hpl], by simp [hpi], by simp [hpt], hh⟩
    · rintro ⟨h1, h2, h3, hh⟩
      obtain ⟨pl, hpl⟩ := Option.ne_none_iff_exists'.1 h1
      obtain ⟨pi, hpi⟩ := Option.ne_none_iff_exists'.1 h2
      obtain ⟨pt, hpt⟩ := Option.ne_none_iff_exists'.1 h3
      exact ⟨_, _, (transformRow_ok_iff g _ line _).2 ⟨rfl, hh, pl, pi, pt, hpl, hpi, hpt, rfl⟩⟩
  have hcases : (∃ e, transformRow g line = .error e) ∨
      ∃ g1 out, transformRow g line = .ok (g1, out) := by
    cases h : transformRow g line with
    | error e => exact Or.inl ⟨e, rfl⟩
    | ok r => exact Or.inr ⟨r.1, r.2, rfl⟩
  have herr : (∃ e, transformRow g line = .error e) ↔
      ¬∃ g1 out, transformRow g line = .ok (g1, out) := by
    constructor
    · rintro ⟨e, he⟩ ⟨g1, out, h⟩
      rw [he] at h
      cases h
    · intro hn
      rcases hcases with h | h
      · exact h
      · exact absurd h hn
  refine ⟨?_, fun e he => transformRow_error g line e he, hcases⟩
  rw [herr, hok, ← hl, ← hi, ← ht]
  by_cases h1 : labelPart g line = none <;> by_cases h2 : importancePart g line = none <;>
    by_cases h3 : tagPart g line = none <;> by_cases hu : g.useheader = true <;>
    simp [h1, h2, h3, hu]

/-! ## Lemmas on the characters of a number -/

theorem readMantissa_consumed (hex : Bool) (cs : List Char) (m m1 : Mantissa)
    (rest : List Char) (h : readMantissa hex cs m = (m1, rest)) :
    ∃ pre, cs = pre ++ rest ∧ ':' ∉ pre := by
  induction cs generalizing m with
  | nil =>
    simp only [readMantissa, Prod.mk.injEq] at h
    exact ⟨[], by simp [h.2], by simp⟩
  | cons c cs ih =>
    by_cases hc : c = ':'
    · subst hc
      have h1 : (':' = '_') = False := by decide
      have h2 : (':' = '.') = False := by decide
      have h3 : digitVal ':' = none := by decide
      have h4 : hexLetterVal ':' = none := by decide
      simp only [readMantissa, h1, h2, h3, h4, if_false, ite_self, Prod.mk.injEq] at h
      exact ⟨[], by simp [h.2], by simp⟩
    · have hcons : ∀ m2, readMantissa hex cs m2 = (m1, rest) →
          ∃ pre, c :: cs = pre ++ rest ∧ ':' ∉ pre := by
        intro m2 h2
        obtain ⟨pre, hp1, hp2⟩ := ih m2 h2
        refine ⟨c :: pre, by simp [hp1], ?_⟩
        simp only [List.mem_cons, not_or]
        exact ⟨fun hh => hc hh.symm, hp2⟩
      have hstop : (m, c :: cs) = (m1, rest) → ∃ pre, c :: cs = pre ++ rest ∧ ':' ∉ pre := by
        intro h2
        simp only [Prod.mk.injEq] at h2
        exact ⟨[], by simp [h2.2], by simp⟩
      simp only [readMantissa] at h
      split at h
      · exact hcons _ h
      · split at h
        · split at h
          · exact hstop h
          · exact hcons _ h
        · split at h
          · split at h
            · exact hcons _ h
            · exact hcons _ h
          · split at h
            · exact hcons _ h
            · exact hstop h

theorem readExpDigits_consumed (cs : List Char) (e e1 : Nat) (u u1 : Bool) (rest : List Char)
    (h : readExpDigits cs e u = (e1, u1, rest)) :
    ∃ pre, cs = pre ++ rest ∧ ':' ∉ pre := by
  induction cs generalizing e u with
  | nil =>
    simp only [readExpDigits, Prod.mk.injEq] at h
    exact ⟨[], by simp [h.2.2], by simp⟩
  | cons c cs ih =>
    by_cases hc : c = ':'
    · subst hc
      have h1 : (':' = '_') = False := by decide
      have h3 : digitVal ':' = none := by decide
      simp only [readExpDigits, h1, h3, if_false, Prod.mk.injEq] at h
      exact ⟨[], by simp [h.2.2], by simp⟩
    · have hcons : ∀ e2 u2, readExpDigits cs e2 u2 = (e1, u1, rest) →
          ∃ pre, c :: cs = pre ++ rest ∧ ':' ∉ pre := by
        intro e2 u2 h2
        obtain ⟨pre, hp1, hp2⟩ := ih e2 u2 h2
        refine ⟨c :: pre, by simp [hp1], ?_⟩
        simp only [List.mem_cons, not_or]
        exact ⟨fun hh => hc hh.symm, hp2⟩
      simp only [readExpDigits] at h
      split at h
      · exact hcons _ _ h
      · split at h
        · exact hcons _ _ h
        · simp only [Prod.mk.injEq] at h
          exact ⟨[], by simp [h.2.2], by simp⟩

theorem lower_colon (hex : Bool) : lower ':' ≠ (if hex then 112 else 101) := by
  cases hex <;> decide

theorem readExpDigits_rest (tail rest : List Char)
    (h : (readExpDigits tail 0 false).2.2 = rest) : ∃ pre, tail = pre ++ rest ∧ ':' ∉ pre :=
  readExpDigits_consumed tail 0 (readExpDigits tail 0 false).1 false
    (readExpDigits tail 0 false).2.1 rest (by rw [← h])

theorem readExponent_consumed (hex : Bool) (cs : List Char) (e : Int) (u : Bool)
    (rest : List Char) (h : readExponent hex cs = some (e, u, rest)) :
    ∃ pre, cs = pre ++ rest ∧ ':' ∉ pre := by
  cases cs with
  | nil =>
    simp only [readExponent] at h
    split at h
    · cases h
    · simp only [Option.some.injEq, Prod.mk.injEq] at h
      exact ⟨[], by simp [h.2.2], by simp⟩
  | cons c rest0 =>
    by_cases hlow : lower c = (if hex then 112 else 101)
    · have hc : c ≠ ':' := by
        intro hh
        rw [hh] at hlow
        exact lower_colon hex hlow
      have fin : ∀ (q tail : List Char), rest0 = q ++ tail → ':' ∉ q →
          (readExpDigits tail 0 false).2.2 = rest →
          ∃ pre, c :: rest0 = pre ++ rest ∧ ':' ∉ pre := by
        intro q tail hq1 hq2 h2
        obtain ⟨pre, hp1, hp2⟩ := readExpDigits_rest tail rest h2
        refine ⟨c :: (q ++ pre), ?_, ?_⟩
        · rw [hq1, hp1]
          simp
        · simp only [List.mem_cons, List.mem_append, not_or]
          exact ⟨fun hh => hc hh.symm, hq2, hp2⟩
      cases rest0 with
      | nil =>
        simp [readExponent, hlow] at h
      | cons s rest1 =>
        by_cases hs1 : s = '+'
        · subst hs1
          cases rest1 with
          | nil => simp [readExponent, hlow] at h
          | cons d t =>
            simp only [readExponent, hlow, if_true] at h
            split at h
            · cases h
            · simp only [Option.some.injEq, Prod.mk.injEq] at h
              exact fin ['+'] (d :: t) (by simp) (by decide) h.2.2
        · by_cases hs2 : s = '-'
          · subst hs2
            have hne : ('-' = '+') = False := by decide
            cases rest1 with
            | nil => simp [readExponent, hlow] at h
            | cons d t =>
              simp only [readExponent, hlow, if_true, hne, if_false] at h
              split at h
              · cases h
              · simp only [Option.some.injEq, Prod.mk.injEq] at h
                exact fin ['-'] (d :: t) (by simp) (by decide) h.2.2
          · simp only [readExponent, hlow, if_true, hs1, hs2, if_false] at h
            split at h
            · cases h
            · simp only [Option.some.injEq, Prod.mk.injEq] at h
              exact fin [] (s :: rest1) (by simp) (by simp) h.2.2
    · simp only [readExponent, hlow, if_false] at h
      split at h
      · cases h
      · simp only [Option.some.injEq, Prod.mk.injEq] at h
        exact ⟨[], by simp [h.2.2], by simp⟩

theorem parseNumber_eq (cs : List Char) :
    parseNumber cs =
      if stripSign cs = [] then .error .ErrSyntax
      else parseBody cs (hexSplit (stripSign cs)).1 (hexSplit (stripSign cs)).2 := by
  rfl

theorem stripSign_consumed (cs : List Char) :
    ∃ q, cs = q ++ stripSign cs ∧ ':' ∉ q := by
  cases cs with
  | nil => exact ⟨[], rfl, by simp⟩
  | cons c rest =>
    unfold stripSign
    by_cases hc : c = '+' ∨ c = '-'
    · simp only [hc, if_true]
      refine ⟨[c], rfl, ?_⟩
      rcases hc with h | h <;> rw [h] <;> decide
    · simp only [hc, if_false]
      exact ⟨[], rfl, by simp⟩

theorem hexSplit_consumed (body : List Char) :
    ∃ q, body = q ++ (hexSplit body).2 ∧ ':' ∉ q := by
  unfold hexSplit
  split
  · rename_i c0 c1 c2 rest
    by_cases hc : c0 = '0' ∧ lower c1 = 120
    · obtain ⟨h0, hl⟩ := hc
      subst h0
      simp only [hl, and_self, if_true]
      refine ⟨['0', c1], rfl, ?_⟩
      have h1 : c1 ≠ ':' := by
        intro hh
        rw [hh] at hl
        revert hl
        decide
      simp only [List.mem_cons, List.mem_singleton, List.not_mem_nil, or_false, not_or]
      exact ⟨by decide, fun hh => h1 hh.symm⟩
    · simp only [hc, if_false]
      exact ⟨[], rfl, by simp⟩
  · exact ⟨[], rfl, by simp⟩

theorem parseBody_no_colon (cs : List Char) (hex : Bool) (body : List Char) (f : Float64)
    (h : parseBody cs hex body = .ok f) : ':' ∉ body := by
  unfold parseBody at h
  cases hm : readMantissa hex body ⟨0, 0, 0, false, false, false⟩ with
  | mk m rest =>
    rw [hm] at h
    simp only at h
    obtain ⟨pre1, hp1, hp2⟩ := readMantissa_consumed hex body _ m rest hm
    split at h
    · cases h
    · split at h
      · cases h
      · rename_i e u rest2 hexp
        obtain ⟨pre2, hq1, hq2⟩ := readExponent_consumed hex rest e u rest2 hexp
        split at h
        · cases h
        · rename_i hrest
          have hr2 : rest2 = [] := by
            by_contra hne
            exact hrest hne
          rw [hp1, hq1, hr2]
          simp only [List.append_nil, List.mem_append, not_or]
          exact ⟨hp2, hq2⟩

theorem parseNumber_no_colon (cs : List Char) (f : Float64) (h : parseNumber cs = .ok f) :
    ':' ∉ cs := by
  rw [parseNumber_eq] at h
  split at h
  · cases h
  · obtain ⟨q1, h1, h2⟩ := stripSign_consumed cs
    obtain ⟨q2, h3, h4⟩ := hexSplit_consumed (stripSign cs)
    have h5 := parseBody_no_colon cs _ _ f h
    rw [h1, h3]
    simp only [List.mem_append, not_or]
    exact ⟨h2, h4, h5⟩

theorem asciiLower_colon (c : Char) (h : asciiLower c = ':') : c = ':' := by
  unfold asciiLower at h
  split at h
  · rename_i hc
    exfalso
    have hc2 : c = Char.ofNat c.toNat := (Char.ofNat_toNat c).symm
    generalize c.toNat = n at hc hc2 h
    obtain ⟨h1, h2⟩ := hc
    interval_cases n <;> revert h <;> decide
  · exact h

theorem special_no_colon (cs : List Char) (f : Float64) (h : special cs = some f) :
    ':' ∉ cs := by
  intro hmem
  have hl : ':' ∈ cs.map asciiLower := List.mem_map.2 ⟨':', hmem, by decide⟩
  unfold special at h
  simp only at h
  generalize cs.map asciiLower = l at hl h
  cases l with
  | nil => simp at hl
  | cons c rest =>
    simp only at h
    by_cases hs : c = '+' ∨ c = '-'
    · simp only [hs, if_true] at h
      have hrest : ':' ∈ rest := by
        rcases List.mem_cons.1 hl with h1 | h1
        · exfalso
          rcases hs with h2 | h2
          · rw [h2] at h1
            exact absurd h1 (by decide)
          · rw [h2] at h1
            exact absurd h1 (by decide)
        · exact h1
      split at h
      · rename_i hu
        rcases hu with hu | hu <;> rw [hu] at hrest <;> revert hrest <;> decide
      · split at h
        · rename_i hn
          rw [hn] at hl
          revert hl
          decide
        · cases h
    · simp only [hs, if_false] at h
      split at h
      · rename_i hu
        rcases hu with hu | hu <;> rw [hu] at hl <;> revert hl <;> decide
      · split at h
        · rename_i hn
          rw [hn] at hl
          revert hl
          decide
        · cases h

/-- A text that `ParseFloat` accepts holds no colon. -/
theorem ParseFloat_no_colon (s : String) (f : Float64) (h : ParseFloat s = .ok f) :
    ':' ∉ s.data := by
  unfold ParseFloat at h
  split at h
  · rename_i f1 hsp
    exact special_no_colon s.data f1 hsp
  · exact parseNumber_no_colon s.data f h

theorem digitChar_ne_sep (d : Nat) : Nat.digitChar d ≠ ':' ∧ Nat.digitChar d ≠ '=' := by
  by_cases h : d < 16
  · interval_cases d <;> decide
  · unfold Nat.digitChar
    iterate 16 rw [if_neg (by omega)]
    decide

theorem Itoa_no_sep (i : Nat) : ':' ∉ (Itoa i).data ∧ '=' ∉ (Itoa i).data := by
  constructor
  · intro h
    rcases toDigitsCore_chars 10 (i + 1) i [] ':' h with h | ⟨d, hd⟩
    · simp at h
    · exact (digitChar_ne_sep d).1 hd.symm
  · intro h
    rcases toDigitsCore_chars 10 (i + 1) i [] '=' h with h | ⟨d, hd⟩
    · simp at h
    · exact (digitChar_ne_sep d).2 hd.symm

/-! ## The separator law -/

theorem sepOf_eq (g : Globals) (i : Nat) : sepOf g i = String.singleton (sepChar g i) := by
  unfold sepOf sepChar
  split <;> rfl

theorem tokenOf_count (g : Globals) (i : Nat) (v : String)
    (hk : sepChar g i ∉ (keyOf g i).data) (hv : sepChar g i ∉ v.data) :
    (tokenOf g i v).data.count (sepChar g i) = 1 := by
  have hsp : sepChar g i ≠ ' ' := by
    unfold sepChar
    split <;> decide
  simp only [tokenOf, sepOf_eq, String.data_append, List.count_append,
    List.count_eq_zero.2 hk, List.count_eq_zero.2 hv]
  simp [List.count_cons, hsp.symm]

/-- C11, as stated, fails: the token of the nominal cell `a=b` in column 1 is `1=a=b`,
which holds the character `=` twice. -/
theorem C11_separator_counterexample :
    transformRow cfgNominal ["1", "a=b"] = .ok (cfgNominal, "1 |n 1=a=b \n") ∧
    (1 : Int) ∈ cfgNominal.nominal ∧
    (1, "a=b") ∈ emittedCells cfgNominal (labelAfter cfgNominal ["1", "a=b"]) ["1", "a=b"] 0 ∧
    (tokenOf cfgNominal 1 "a=b").data.count '=' = 2 := by
  decide

/-- C11, amended: every feature token is the key, then one separator character, `=` for a
nominal column and `:` otherwise, then the raw value text and a space; the token holds that
character exactly once when neither the key nor the value text holds it, and this is always
so for a column that is not nominal and is keyed by its index; the feature section of every
line produced consists of these tokens. -/
theorem C11_separator_law (g : Globals) (line : List String) (p : Nat × String)
    (hp : p ∈ emittedCells g (labelAfter g line) line 0) :
    tokenOf g p.1 p.2 = keyOf g p.1 ++ String.singleton (sepChar g p.1) ++ p.2 ++ " " ∧
    (sepChar g p.1 = if (p.1 : Int) ∈ g.nominal then '=' else ':') ∧
    (sepChar g p.1 ∉ (keyOf g p.1).data → sepChar g p.1 ∉ p.2.data →
      (tokenOf g p.1 p.2).data.count (sepChar g p.1) = 1) ∧
    ((p.1 : Int) ∉ g.nominal → g.useheader = false →
      (tokenOf g p.1 p.2).data.count ':' = 1) ∧
    (∀ g1 out, transformRow g line = .ok (g1, out) →
      ∃ pre, out = pre ++ "|n " ++ concatAll ((emittedCells g (labelAfter g line) line 0).map
        (fun q => tokenOf g q.1 q.2)) ++ "\n") := by
  refine ⟨by rw [tokenOf, sepOf_eq], rfl, tokenOf_count g p.1 p.2, ?_, ?_⟩
  · intro hn hu
    have hem := ((mem_emittedCells g _ line p).1 hp).2
    simp only [emits, decide_eq_true_eq] at hem
    have hpn : parsesNonzero p.2 = true := by
      rcases hem.2.2.2.2.2 with h | h
      · exact absurd h hn
      · exact h
    have hv : ':' ∉ p.2.data := by
      unfold parsesNonzero at hpn
      split at hpn
      · rename_i f hf
        exact ParseFloat_no_colon p.2 f hf
      · cases hpn
    have hk : ':' ∉ (keyOf g p.1).data := by
      simp only [keyOf, hu, Bool.false_eq_true, if_false]
      exact (Itoa_no_sep p.1).1
    have hs : sepChar g p.1 = ':' := by simp [sepChar, hn]
    have := tokenOf_count g p.1 p.2 (by rw [hs]; exact hk) (by rw [hs]; exact hv)
    rw [hs] at this
    exact this
  · intro g1 out h
    obtain ⟨_, _, pl, pi, pt, _, _, _, hout⟩ := (transformRow_ok_iff g g1 line out).1 h
    exact ⟨pl ++ pi ++ pt, hout⟩

/-- C11 at the cell `2.0` of column 3 in the row of scenario S4. -/
theorem C11_separator_law_witness :
    tokenOf cfgTagged 3 "2.0" = "3:2.0 " ∧
    (tokenOf cfgTagged (3, "2.0").1 (3, "2.0").2 =
      keyOf cfgTagged (3, "2.0").1 ++ String.singleton (sepChar cfgTagged (3, "2.0").1) ++
        (3, "2.0").2 ++ " " ∧
    (sepChar cfgTagged (3, "2.0").1 =
      if (((3, "2.0") : Nat × String).1 : Int) ∈ cfgTagged.nominal then '=' else ':') ∧
    (sepChar cfgTagged (3, "2.0").1 ∉ (keyOf cfgTagged (3, "2.0").1).data →
      sepChar cfgTagged (3, "2.0").1 ∉ ((3, "2.0") : Nat × String).2.data →
      (tokenOf cfgTagged (3, "2.0").1 (3, "2.0").2).data.count
        (sepChar cfgTagged (3, "2.0").1) = 1) ∧
    ((((3, "2.0") : Nat × String).1 : Int) ∉ cfgTagged.nominal → cfgTagged.useheader = false →
      (tokenOf cfgTagged (3, "2.0").1 (3, "2.0").2).data.count ':' = 1) ∧
    (∀ g1 out, transformRow cfgTagged ["1", "0.5", "ex1", "2.0", "3.0"] = .ok (g1, out) →
      ∃ pre, out = pre ++ "|n " ++
        concatAll ((emittedCells cfgTagged (labelAfter cfgTagged ["1", "0.5", "ex1", "2.0", "3.0"])
          ["1", "0.5", "ex1", "2.0", "3.0"] 0).map (fun q => tokenOf cfgTagged q.1 q.2)) ++
            "\n")) :=
  ⟨by decide,
    C11_separator_law cfgTagged ["1", "0.5", "ex1", "2.0", "3.0"] (3, "2.0") (by decide)⟩

end Csv2vw
